import Mathlib

/-!
Shallow embedding of the dmap package (dijkstra.go): a Brogue-style
"Dijkstra map" computed over a caller-supplied grid by fixed-point
relaxation.

Modelling choices, all taken from the source:

* `Rank` is Go's `uint16`; it is modelled as `Nat`, and the single
  arithmetic operation the source performs on a rank (`ln + 1` in
  `Calc`) is taken modulo 2^16, exactly where the machine addition
  could wrap.  All stored values are below 2^16 by construction.
* The rank grid `Points [][]Rank` (allocated by `BlankDMap` with
  dimensions `SizeX × SizeY`) is modelled as a total function
  `Int → Int → Rank`; the cells of the Go array are the values at
  0 ≤ x < SizeX, 0 ≤ y < SizeY, which are the only coordinates the
  engine reads (via the `OOB` guard in `GetValPoint`) or writes (the
  sweep loops range over the array).  `setTargetsChecked` below
  additionally models the unchecked (panicking) array write that
  `Calc` performs on its target list.
* Go's `NeigbourFunc` field is a function receiving the whole
  `DijkstraMap`; storing it inside the structure would be a negative
  occurrence, so it is passed as an explicit argument `nf` to every
  operation.  The source never mutates this field, so this is
  equivalent.
* The unbounded `for mademutation` loop of `Calc` is modelled by
  `calcLoop` with fuel `sumRanks + 1`; the development proves that
  this fuel always suffices (each mutating pass strictly decreases
  the total of the in-bounds ranks), so the fuelled function equals
  the Go loop.
-/

/-- Rank is the rank of a tile - lower is closer to the target.  In the
source it is `uint16`; here rank values are `Nat` (so `Rank` and `Nat`
are the same type), with the one rank addition the source performs
taken mod 2^16.  Signatures below spell the type `Nat` rather than
`Rank` because several tactics only recognise arithmetic facts stated
over the literal type. -/
abbrev Rank := Nat

/-- RankMax is the highest possible rank, `math.MaxUint16 - 10` in the
source (an untyped Go constant). -/
def RankMax : Nat := 65535 - 10

/-- Map is the grid contract the caller supplies: dimensions, a
passability predicate and an out-of-bounds predicate.  Go's `SizeX` and
`SizeY` return `int`; they are modelled as `Nat` (the engine is only
ever constructed via `BlankDMap`, whose `make` calls require them to be
non-negative). -/
structure Map where
  SizeX : Nat
  SizeY : Nat
  IsPassable : Int → Int → Bool
  OOB : Int → Int → Bool

/-- WeightedPoint is a Point that also has a rank. -/
structure WeightedPoint where
  X : Int
  Y : Int
  Val : Nat
  deriving DecidableEq

/-- GetXY implements the Point interface. -/
def WeightedPoint.GetXY (p : WeightedPoint) : Int × Int :=
  (p.X, p.Y)

/-- DijkstraMap is a representation of a Brogue-style Dijkstra map:
the rank grid plus the grid contract.  The `NeigbourFunc` field of the
Go struct is passed separately (see the module comment). -/
@[ext]
structure DijkstraMap where
  Points : Int → Int → Nat
  M : Map

/-- NeigbourFunc is the type of the pluggable neighbour-topology
function stored on the Go struct. -/
abbrev NeigbourFunc := DijkstraMap → Int → Int → List WeightedPoint

/-- BlankDMap creates a blank Dijkstra map for the map passed to it:
every cell of the freshly allocated grid is initialized to RankMax. -/
def BlankDMap (m : Map) : DijkstraMap :=
  { Points := fun _ _ => RankMax, M := m }

/-- GetValPoint gets the weighted point at X, Y of the Dijkstra map.
Points that are out of bounds count as maximum rank. -/
def GetValPoint (d : DijkstraMap) (x y : Int) : WeightedPoint :=
  if d.M.OOB x y then { X := x, Y := y, Val := RankMax }
  else { X := x, Y := y, Val := d.Points x y }

/-- ManhattanNeighbours returns the neighbours of the block x, y to the
north, south, east, and west. -/
def ManhattanNeighbours : NeigbourFunc := fun d x y =>
  [GetValPoint d (x + 1) y,
   GetValPoint d (x - 1) y,
   GetValPoint d x (y - 1),
   GetValPoint d x (y + 1)]

/-- DiagonalNeighbours returns the neighbours of the block x, y to the
north, south, east, west, NE, SE, NW, and SW. -/
def DiagonalNeighbours : NeigbourFunc := fun d x y =>
  [GetValPoint d (x + 1) y,
   GetValPoint d (x - 1) y,
   GetValPoint d x (y - 1),
   GetValPoint d x (y + 1),
   GetValPoint d (x + 1) (y + 1),
   GetValPoint d (x + 1) (y - 1),
   GetValPoint d (x - 1) (y + 1),
   GetValPoint d (x - 1) (y - 1)]

/-- A neighbour function induced by a list of coordinate offsets, each
sample obtained through the bounds-checked lookup.  `ManhattanNeighbours`
and `DiagonalNeighbours` are exactly `offsetNeighbours` of their offset
lists (proved below); general theorems are stated for this class. -/
def offsetNeighbours (offs : List (Int × Int)) : NeigbourFunc := fun d x y =>
  offs.map fun o => GetValPoint d (x + o.1) (y + o.2)

/-- The four orthogonal offsets, in the enumeration order of
`ManhattanNeighbours`. -/
def manhattanOffs : List (Int × Int) := [(1, 0), (-1, 0), (0, -1), (0, 1)]

/-- The eight offsets, in the enumeration order of `DiagonalNeighbours`. -/
def diagonalOffs : List (Int × Int) :=
  [(1, 0), (-1, 0), (0, -1), (0, 1), (1, 1), (1, -1), (-1, 1), (-1, -1)]

/-- LowestNeighbour returns the neighbour of the point at x, y with the
lowest rank: `lv` starts at RankMax, `ret` at `vals[0]`, and the loop
keeps the first sample whose rank is strictly below the running minimum.
On an empty sample list the Go code panics at `vals[0]`; that case is
modelled by a RankMax sentinel and never arises for the topologies used
here. -/
def LowestNeighbour (nf : NeigbourFunc) (d : DijkstraMap) (x y : Int) : WeightedPoint :=
  match nf d x y with
  | [] => { X := x, Y := y, Val := RankMax }
  | v :: vs =>
    (List.foldl (fun acc val => if val.Val < acc.1 then (val.Val, val) else acc)
      (RankMax, v) (v :: vs)).2

/-- Write rank `r` at cell (x, y) of the grid. -/
def setPoint (d : DijkstraMap) (x y : Int) (r : Nat) : DijkstraMap :=
  { d with Points := fun a b => if a = x ∧ b = y then r else d.Points a b }

/-- One relaxation step of `Calc` at cell (x, y): if the cell is
passable and its rank exceeds lowest-neighbour-plus-one, write that
value and report a mutation.  The increment is a `uint16` addition,
hence the mod 2^16. -/
def relaxAt (nf : NeigbourFunc) (d : DijkstraMap) (x y : Int) : DijkstraMap × Bool :=
  if d.M.IsPassable x y then
    let ln := (LowestNeighbour nf d x y).Val
    if d.Points x y > (ln + 1) % 65536 then
      (setPoint d x y ((ln + 1) % 65536), true)
    else (d, false)
  else (d, false)

/-- The body of the doubly-nested sweep loop of `Calc`: relax the
forward cell (x, y) and then its point reflection
(SizeX-1-x, SizeY-1-y), accumulating the mutation flag. -/
def sweepCell (nf : NeigbourFunc) (a : DijkstraMap × Bool) (x y : Nat) : DijkstraMap × Bool :=
  let r1 := relaxAt nf a.1 (x : Int) (y : Int)
  let x1 : Int := ((r1.1.M.SizeX : Int) - 1) - (x : Int)
  let y1 : Int := ((r1.1.M.SizeY : Int) - 1) - (y : Int)
  let r2 := relaxAt nf r1.1 x1 y1
  (r2.1, a.2 || r1.2 || r2.2)

/-- The inner `for y := range d.Points[x]` loop of one sweep. -/
def sweepRow (nf : NeigbourFunc) (x : Nat) (sy : Nat) (a : DijkstraMap × Bool) :
    DijkstraMap × Bool :=
  (List.range sy).foldl (fun b y => sweepCell nf b x y) a

/-- The outer loop of one sweep, over the first `sx` rows. -/
def sweepRows (nf : NeigbourFunc) (sx sy : Nat) (a : DijkstraMap × Bool) :
    DijkstraMap × Bool :=
  (List.range sx).foldl (fun b x => sweepRow nf x sy b) a

/-- One full sweep of `Calc`'s mutation loop: the nested
`for x ... for y ...` loops, starting from `mademutation = false`. -/
def sweep (nf : NeigbourFunc) (d : DijkstraMap) : DijkstraMap × Bool :=
  (List.range d.M.SizeX).foldl (fun a x => sweepRow nf x d.M.SizeY a) (d, false)

/-- Total of the ranks stored in the cells of the grid (the cells of the
Go array, i.e. the in-dimension coordinates).  This is the termination
measure of `Calc`'s loop. -/
def sumRanks (d : DijkstraMap) : Nat :=
  ∑ p ∈ Finset.range d.M.SizeX ×ˢ Finset.range d.M.SizeY, d.Points (p.1 : Int) (p.2 : Int)

/-- Write rank 0 at every target coordinate, as the first phase of
`Calc` does (the Go `Point` arguments are represented by the pairs
their `GetXY` returns). -/
def setTargets (d : DijkstraMap) (targets : List (Int × Int)) : DijkstraMap :=
  targets.foldl (fun acc t => setPoint acc t.1 t.2 0) d

/-- The `for mademutation` loop of `Calc`, with explicit fuel: run a
sweep; if it mutated, continue, else stop.  The development proves that
fuel `sumRanks d + 1` always reaches the fixed point, so with that fuel
this function is the Go loop. -/
def calcLoop (nf : NeigbourFunc) : Nat → DijkstraMap → DijkstraMap
  | 0, d => d
  | fuel + 1, d =>
    let s := sweep nf d
    if s.2 then calcLoop nf fuel s.1 else s.1

/-- The fuel with which `Calc` runs its loop; proved sufficient below. -/
def calcFuel (d : DijkstraMap) : Nat := sumRanks d + 1

/-- Calc calculates the Dijkstra map with the given points as targets:
force every target's rank to 0, then sweep until a full pass makes no
mutation. -/
def Calc (nf : NeigbourFunc) (d : DijkstraMap) (targets : List (Int × Int)) : DijkstraMap :=
  calcLoop nf (calcFuel (setTargets d targets)) (setTargets d targets)

/-- The reset loop of `Recalc`: write RankMax into every cell of the
existing grid (`for i := range d.Points { for j ... }`). -/
def resetPoints (d : DijkstraMap) : DijkstraMap :=
  (List.range d.M.SizeX).foldl
    (fun a (i : Nat) =>
      (List.range d.M.SizeY).foldl (fun b (j : Nat) => setPoint b (i : Int) (j : Int) RankMax) a)
    d

/-- Recalc recalculates the Dijkstra map with the given points as
targets: reset every cell to RankMax in place, then `Calc`. -/
def Recalc (nf : NeigbourFunc) (d : DijkstraMap) (targets : List (Int × Int)) : DijkstraMap :=
  Calc nf (resetPoints d) targets

/-- A coordinate lies inside the grid dimensions (a cell of the Go
array). -/
abbrev inDims (m : Map) (x y : Int) : Prop :=
  0 ≤ x ∧ x < (m.SizeX : Int) ∧ 0 ≤ y ∧ y < (m.SizeY : Int)

/-- The bounds-checked write `d.Points[x][y] = r`: Go panics when the
index is outside the backing arrays (which `BlankDMap` allocates with
the grid dimensions); the panic is modelled as `none`. -/
def setPointChecked (d : DijkstraMap) (x y : Int) (r : Nat) : Option DijkstraMap :=
  if inDims d.M x y then some (setPoint d x y r) else none

/-- The target-setting phase of `Calc` with the array-bounds semantics
of the Go writes `d.Points[x][y] = 0`. -/
def setTargetsChecked (d : DijkstraMap) (targets : List (Int × Int)) : Option DijkstraMap :=
  targets.foldlM (fun acc t => setPointChecked acc t.1 t.2 0) d

/-- `Calc` with the array-bounds semantics of its target writes: `none`
models the panic on an out-of-range target. -/
def CalcChecked (nf : NeigbourFunc) (d : DijkstraMap) (targets : List (Int × Int)) :
    Option DijkstraMap :=
  (setTargetsChecked d targets).map fun d0 => calcLoop nf (calcFuel d0) d0

/-- There is a path of exactly `k` unit hops from `c` to some target:
`reachB 0 c` iff `c` is a target; `reachB (k+1) c` iff `c` is an
in-dimension passable cell one offset away from a cell with a path of
`k` hops.  This is the path notion of the spec: every cell strictly
before the final target must be passable (and on the grid). -/
def reachB (m : Map) (offs targets : List (Int × Int)) : Nat → Int × Int → Bool
  | 0, c => decide (c ∈ targets)
  | k + 1, c =>
    decide (inDims m c.1 c.2) && m.IsPassable c.1 c.2 &&
      offs.any fun o => reachB m offs targets k (c.1 + o.1, c.2 + o.2)

/-- `k` is the minimum number of unit hops from `c` to the nearest
target. -/
def ReachMin (m : Map) (offs targets : List (Int × Int)) (k : Nat) (c : Int × Int) : Prop :=
  reachB m offs targets k c = true ∧ ∀ j, reachB m offs targets j c = true → k ≤ j

/-- The invariant `Calc` maintains on every state it reaches: every
cell's rank is at most RankMax, and a cell holding a rank below RankMax
really has a path of that many hops to a target. -/
def CalcInv (m : Map) (offs targets : List (Int × Int)) (d : DijkstraMap) : Prop :=
  ∀ a b : Int, d.Points a b ≤ RankMax ∧
    (d.Points a b < RankMax → reachB m offs targets (d.Points a b) (a, b) = true)

/-- The relaxation guard fails at (x, y): a passable cell does not
exceed lowest-neighbour-plus-one.  A state satisfying this at every
in-dimension cell is a fixed point of `sweep`. -/
def relaxCond (nf : NeigbourFunc) (d : DijkstraMap) (x y : Int) : Prop :=
  d.M.IsPassable x y = true →
    ¬ (d.Points x y > ((LowestNeighbour nf d x y).Val + 1) % 65536)

/-- Both relaxation guards checked by the sweep body at loop indices
(x, y) fail: the forward cell and its point reflection. -/
def cellCond (nf : NeigbourFunc) (d : DijkstraMap) (x y : Nat) : Prop :=
  relaxCond nf d (x : Int) (y : Int) ∧
    relaxCond nf d (((d.M.SizeX : Int) - 1) - (x : Int)) (((d.M.SizeY : Int) - 1) - (y : Int))

/-- A grid contract whose `OOB` is the negation of the dimension check,
as the contract requires (`OOB` "must agree with width/height").
Concrete grids in the witnesses are built with this constructor. -/
def mkGridMap (sx sy : Nat) (pass : Int → Int → Bool) : Map :=
  { SizeX := sx
    SizeY := sy
    IsPassable := pass
    OOB := fun x y => !(decide (0 ≤ x) && decide (x < (sx : Int)) &&
      decide (0 ≤ y) && decide (y < (sy : Int))) }

/-- A 1-column, 70000-row all-passable grid: a witness grid whose far
end is more than RankMax unit hops from the origin. -/
def lineMap : Map := mkGridMap 1 70000 fun _ _ => true

/-- Go's `fmt.Sprintf("%6d", n)`: the decimal digits right-aligned in a
field of width 6, padded on the left with spaces. -/
def pad6 (n : Nat) : String :=
  let s := Nat.repr n
  if s.length < 6 then String.mk (List.replicate (6 - s.length) ' ') ++ s else s

/-- String returns a string representation of a Dijkstra Map: for each
row, every cell printed with `%6d` followed by ", ", and a newline
written after the row. -/
def DijkstraMap.String (d : DijkstraMap) : String :=
  (List.range d.M.SizeX).foldl
    (fun buf (x : Nat) =>
      ((List.range d.M.SizeY).foldl
        (fun b (y : Nat) => b ++ pad6 (d.Points (x : Int) (y : Int)) ++ ", ") buf) ++ "\n")
    ""

/-- A cell value padded on the right to width 6, as the spec's words
"right-padded to a fixed width" read literally. -/
def pad6Right (n : Nat) : String :=
  let s := Nat.repr n
  if s.length < 6 then s ++ String.mk (List.replicate (6 - s.length) ' ') else s

/-- Modelled from the spec: the rendering the claim describes, with each
cell's value right-padded to the fixed width (and otherwise with the
cell separator and row layout of the source). -/
def specStringRightPad (d : DijkstraMap) : String :=
  String.join ((List.range d.M.SizeX).map fun (x : Nat) =>
    String.join ((List.range d.M.SizeY).map fun (y : Nat) =>
      pad6Right (d.Points (x : Int) (y : Int)) ++ ", ") ++ "\n")

/-- Modelled from the spec, amended: each cell's value left-padded
(right-aligned) to width 6 and followed by ", ", each row terminated by
a newline. -/
def specStringLeftPad (d : DijkstraMap) : String :=
  String.join ((List.range d.M.SizeX).map fun (x : Nat) =>
    String.join ((List.range d.M.SizeY).map fun (y : Nat) =>
      pad6 (d.Points (x : Int) (y : Int)) ++ ", ") ++ "\n")

/-! ### Basic facts about the primitive operations -/

lemma RankMax_eq : RankMax = 65525 := rfl

lemma setPoint_M (d : DijkstraMap) (x y : Int) (r : Nat) : (setPoint d x y r).M = d.M := rfl

lemma setPoint_points (d : DijkstraMap) (x y : Int) (r : Nat) (a b : Int) :
    (setPoint d x y r).Points a b = if a = x ∧ b = y then r else d.Points a b := rfl

lemma relaxAt_eq (nf : NeigbourFunc) (d : DijkstraMap) (x y : Int) :
    relaxAt nf d x y =
      if d.M.IsPassable x y = true ∧
          ((LowestNeighbour nf d x y).Val + 1) % 65536 < d.Points x y then
        (setPoint d x y (((LowestNeighbour nf d x y).Val + 1) % 65536), true)
      else (d, false) := by
  unfold relaxAt
  by_cases h1 : d.M.IsPassable x y <;>
    by_cases h2 : ((LowestNeighbour nf d x y).Val + 1) % 65536 < d.Points x y <;>
      simp [h1, h2]

lemma relaxAt_M (nf : NeigbourFunc) (d : DijkstraMap) (x y : Int) :
    (relaxAt nf d x y).1.M = d.M := by
  rw [relaxAt_eq]; split <;> rfl

lemma relaxAt_le (nf : NeigbourFunc) (d : DijkstraMap) (x y a b : Int) :
    (relaxAt nf d x y).1.Points a b ≤ d.Points a b := by
  rw [relaxAt_eq]
  split
  · next h =>
    rw [setPoint_points]
    split
    · next hab => rcases hab with ⟨rfl, rfl⟩; exact le_of_lt h.2
    · exact le_rfl
  · exact le_rfl

lemma relaxAt_false (nf : NeigbourFunc) (d : DijkstraMap) (x y : Int)
    (h : (relaxAt nf d x y).2 = false) :
    (relaxAt nf d x y).1 = d ∧ relaxCond nf d x y := by
  rw [relaxAt_eq] at h ⊢
  split at h
  · simp at h
  · next hneg =>
    rw [if_neg hneg]
    refine ⟨rfl, fun hp hlt => hneg ⟨hp, ?_⟩⟩
    exact gt_iff_lt.mp hlt

lemma relaxAt_of_cond (nf : NeigbourFunc) (d : DijkstraMap) (x y : Int)
    (h : relaxCond nf d x y) : relaxAt nf d x y = (d, false) := by
  rw [relaxAt_eq, if_neg]
  rintro ⟨h1, h2⟩
  exact h h1 (gt_iff_lt.mpr h2)

lemma relaxAt_true (nf : NeigbourFunc) (d : DijkstraMap) (x y : Int)
    (h : (relaxAt nf d x y).2 = true) :
    (relaxAt nf d x y).1.Points x y < d.Points x y := by
  rw [relaxAt_eq] at h ⊢
  split at h
  · next hcond =>
    rw [if_pos hcond]
    simpa [setPoint_points] using hcond.2
  · simp at h

/-! ### The minimum-scan of `LowestNeighbour` -/

lemma lowestFold_mem (l : List WeightedPoint) (acc : Nat × WeightedPoint) :
    (l.foldl (fun acc val => if val.Val < acc.1 then (val.Val, val) else acc) acc).2 ∈ l ∨
      (l.foldl (fun acc val => if val.Val < acc.1 then (val.Val, val) else acc) acc).2 = acc.2 := by
  induction l generalizing acc with
  | nil => exact Or.inr rfl
  | cons v vs ih =>
    simp only [List.foldl_cons]
    by_cases hv : v.Val < acc.1
    · rw [if_pos hv]
      rcases ih (v.Val, v) with h | h
      · exact Or.inl (List.mem_cons_of_mem _ h)
      · exact Or.inl (by rw [h]; exact List.mem_cons_self _ _)
    · rw [if_neg hv]
      rcases ih acc with h | h
      · exact Or.inl (List.mem_cons_of_mem _ h)
      · exact Or.inr h

lemma lowestFold_fst_le (l : List WeightedPoint) (acc : Nat × WeightedPoint) :
    (l.foldl (fun acc val => if val.Val < acc.1 then (val.Val, val) else acc) acc).1 ≤ acc.1 ∧
      ∀ v ∈ l,
        (l.foldl (fun acc val => if val.Val < acc.1 then (val.Val, val) else acc) acc).1 ≤ v.Val := by
  induction l generalizing acc with
  | nil => exact ⟨le_rfl, by simp⟩
  | cons v vs ih =>
    simp only [List.foldl_cons]
    by_cases hv : v.Val < acc.1
    · rw [if_pos hv]
      obtain ⟨h1, h2⟩ := ih (v.Val, v)
      refine ⟨le_trans h1 (le_of_lt hv), ?_⟩
      intro w hw
      rcases List.mem_cons.mp hw with rfl | hw
      · exact h1
      · exact h2 w hw
    · rw [if_neg hv]
      obtain ⟨h1, h2⟩ := ih acc
      refine ⟨h1, ?_⟩
      intro w hw
      rcases List.mem_cons.mp hw with rfl | hw
      · exact le_trans h1 (le_of_not_lt hv)
      · exact h2 w hw

lemma lowestFold_snd_val (l : List WeightedPoint) (acc : Nat × WeightedPoint) :
    (l.foldl (fun acc val => if val.Val < acc.1 then (val.Val, val) else acc) acc).2.Val =
        (l.foldl (fun acc val => if val.Val < acc.1 then (val.Val, val) else acc) acc).1 ∨
      (l.foldl (fun acc val => if val.Val < acc.1 then (val.Val, val) else acc) acc) = acc := by
  induction l generalizing acc with
  | nil => exact Or.inr rfl
  | cons v vs ih =>
    simp only [List.foldl_cons]
    by_cases hv : v.Val < acc.1
    · rw [if_pos hv]
      rcases ih (v.Val, v) with h | h
      · exact Or.inl h
      · rw [h]
        exact Or.inl rfl
    · rw [if_neg hv]
      rcases ih acc with h | h
      · exact Or.inl h
      · exact Or.inr h

lemma LowestNeighbour_mem (nf : NeigbourFunc) (d : DijkstraMap) (x y : Int)
    (hne : nf d x y ≠ []) : LowestNeighbour nf d x y ∈ nf d x y := by
  unfold LowestNeighbour
  match hl : nf d x y with
  | [] => exact absurd hl hne
  | v :: vs =>
    show (List.foldl (fun acc val => if val.Val < acc.1 then (val.Val, val) else acc)
      (RankMax, v) (v :: vs)).2 ∈ v :: vs
    rcases lowestFold_mem (v :: vs) (RankMax, v) with h | h
    · exact h
    · rw [h]; exact List.mem_cons_self _ _

lemma LowestNeighbour_val_le (nf : NeigbourFunc) (d : DijkstraMap) (x y : Int)
    (hmax : ∀ w ∈ nf d x y, w.Val ≤ RankMax) :
    ∀ v ∈ nf d x y, (LowestNeighbour nf d x y).Val ≤ v.Val := by
  unfold LowestNeighbour
  match hl : nf d x y with
  | [] => simp
  | v :: vs =>
    intro w hw
    show (List.foldl (fun acc val => if val.Val < acc.1 then (val.Val, val) else acc)
      (RankMax, v) (v :: vs)).2.Val ≤ w.Val
    obtain ⟨h1, h2⟩ := lowestFold_fst_le (v :: vs) (RankMax, v)
    rcases lowestFold_snd_val (v :: vs) (RankMax, v) with h | h
    · rw [h]; exact h2 w hw
    · rw [h]
      have hall : RankMax ≤ w.Val := by
        have := h2 w hw
        rw [h] at this
        exact this
      calc v.Val ≤ RankMax := hmax v (hl ▸ List.mem_cons_self _ _)
        _ ≤ w.Val := hall

lemma LowestNeighbour_val_le_max (nf : NeigbourFunc) (d : DijkstraMap) (x y : Int)
    (hmax : ∀ w ∈ nf d x y, w.Val ≤ RankMax) :
    (LowestNeighbour nf d x y).Val ≤ RankMax := by
  by_cases hne : nf d x y = []
  · unfold LowestNeighbour
    rw [hne]
  · exact hmax _ (LowestNeighbour_mem nf d x y hne)

/-! ### The sweep body and the nested sweep loops -/

lemma sweepCell_M (nf : NeigbourFunc) (a : DijkstraMap × Bool) (x y : Nat) :
    (sweepCell nf a x y).1.M = a.1.M := by
  unfold sweepCell
  rw [relaxAt_M, relaxAt_M]

lemma sweepCell_le (nf : NeigbourFunc) (a : DijkstraMap × Bool) (x y : Nat) (i j : Int) :
    (sweepCell nf a x y).1.Points i j ≤ a.1.Points i j := by
  unfold sweepCell
  exact le_trans (relaxAt_le nf _ _ _ i j) (relaxAt_le nf _ _ _ i j)

lemma sweepCell_flag_mono (nf : NeigbourFunc) (a : DijkstraMap × Bool) (x y : Nat)
    (h : a.2 = true) : (sweepCell nf a x y).2 = true := by
  unfold sweepCell
  rw [h]
  simp

lemma sweepCell_fst_flag (nf : NeigbourFunc) (d : DijkstraMap) (b b2 : Bool) (x y : Nat) :
    (sweepCell nf (d, b) x y).1 = (sweepCell nf (d, b2) x y).1 := rfl

lemma sweepCell_false (nf : NeigbourFunc) (d : DijkstraMap) (x y : Nat)
    (h : (sweepCell nf (d, false) x y).2 = false) :
    (sweepCell nf (d, false) x y).1 = d ∧ cellCond nf d x y := by
  simp only [sweepCell] at h ⊢
  simp only [Bool.false_or, Bool.or_eq_false_iff] at h
  obtain ⟨h1, h2⟩ := h
  obtain ⟨he1, hc1⟩ := relaxAt_false nf d _ _ h1
  rw [he1] at h2 ⊢
  obtain ⟨he2, hc2⟩ := relaxAt_false nf d _ _ h2
  exact ⟨he2, hc1, hc2⟩

lemma sweepCell_of_cond (nf : NeigbourFunc) (d : DijkstraMap) (b : Bool) (x y : Nat)
    (h : cellCond nf d x y) : sweepCell nf (d, b) x y = (d, b) := by
  unfold sweepCell
  rw [relaxAt_of_cond nf d _ _ h.1]
  simp only
  rw [relaxAt_of_cond nf d _ _ h.2]
  simp

lemma sweepCell_true (nf : NeigbourFunc) (d : DijkstraMap) (x y : Nat)
    (hx : x < d.M.SizeX) (hy : y < d.M.SizeY)
    (h : (sweepCell nf (d, false) x y).2 = true) :
    ∃ i j : Nat, i < d.M.SizeX ∧ j < d.M.SizeY ∧
      (sweepCell nf (d, false) x y).1.Points (i : Int) (j : Int) < d.Points (i : Int) (j : Int) := by
  simp only [sweepCell] at h ⊢
  simp only [Bool.false_or, Bool.or_eq_true] at h
  rcases h with h1 | h2
  · refine ⟨x, y, hx, hy, ?_⟩
    calc (relaxAt nf (relaxAt nf d x y).1 _ _).1.Points (x : Int) (y : Int)
        ≤ (relaxAt nf d x y).1.Points (x : Int) (y : Int) := relaxAt_le nf _ _ _ _ _
      _ < d.Points (x : Int) (y : Int) := relaxAt_true nf d _ _ h1
  · by_cases h1 : (relaxAt nf d (x : Int) (y : Int)).2 = true
    · refine ⟨x, y, hx, hy, ?_⟩
      calc (relaxAt nf (relaxAt nf d x y).1 _ _).1.Points (x : Int) (y : Int)
          ≤ (relaxAt nf d x y).1.Points (x : Int) (y : Int) := relaxAt_le nf _ _ _ _ _
        _ < d.Points (x : Int) (y : Int) := relaxAt_true nf d _ _ h1
    · rw [Bool.not_eq_true] at h1
      obtain ⟨he1, _⟩ := relaxAt_false nf d _ _ h1
      rw [he1] at h2 ⊢
      refine ⟨d.M.SizeX - 1 - x, d.M.SizeY - 1 - y, ?_, ?_, ?_⟩
      · omega
      · omega
      · have hxc : ((d.M.SizeX - 1 - x : Nat) : Int) = ((d.M.SizeX : Int) - 1) - (x : Int) := by
          omega
        have hyc : ((d.M.SizeY - 1 - y : Nat) : Int) = ((d.M.SizeY : Int) - 1) - (y : Int) := by
          omega
        rw [hxc, hyc]
        exact relaxAt_true nf d _ _ h2

lemma sweepRow_zero (nf : NeigbourFunc) (x : Nat) (a : DijkstraMap × Bool) :
    sweepRow nf x 0 a = a := rfl

lemma sweepRow_succ (nf : NeigbourFunc) (x n : Nat) (a : DijkstraMap × Bool) :
    sweepRow nf x (n + 1) a = sweepCell nf (sweepRow nf x n a) x n := by
  unfold sweepRow
  rw [List.range_succ, List.foldl_append]
  rfl

lemma sweepRow_M (nf : NeigbourFunc) (x sy : Nat) (a : DijkstraMap × Bool) :
    (sweepRow nf x sy a).1.M = a.1.M := by
  induction sy with
  | zero => rfl
  | succ n ih => rw [sweepRow_succ, sweepCell_M, ih]

lemma sweepRow_le (nf : NeigbourFunc) (x sy : Nat) (a : DijkstraMap × Bool) (i j : Int) :
    (sweepRow nf x sy a).1.Points i j ≤ a.1.Points i j := by
  induction sy with
  | zero => exact le_rfl
  | succ n ih =>
    rw [sweepRow_succ]
    exact le_trans (sweepCell_le nf _ x n i j) ih

lemma sweepRow_flag_mono (nf : NeigbourFunc) (x sy : Nat) (a : DijkstraMap × Bool)
    (h : a.2 = true) : (sweepRow nf x sy a).2 = true := by
  induction sy with
  | zero => exact h
  | succ n ih =>
    rw [sweepRow_succ]
    exact sweepCell_flag_mono nf _ x n ih

lemma sweepRow_false (nf : NeigbourFunc) (x sy : Nat) (d : DijkstraMap)
    (h : (sweepRow nf x sy (d, false)).2 = false) :
    (sweepRow nf x sy (d, false)).1 = d ∧ ∀ y < sy, cellCond nf d x y := by
  induction sy with
  | zero => exact ⟨rfl, by omega⟩
  | succ n ih =>
    rw [sweepRow_succ] at h ⊢
    have hn : (sweepRow nf x n (d, false)).2 = false := by
      by_contra hc
      rw [Bool.not_eq_false] at hc
      rw [sweepCell_flag_mono nf _ x n hc] at h
      exact absurd h (by simp)
    obtain ⟨he, hcs⟩ := ih hn
    have hpair : sweepRow nf x n (d, false) = (d, false) := by
      have := Prod.mk.eta (p := sweepRow nf x n (d, false))
      rw [← this, he, hn]
    rw [hpair] at h ⊢
    obtain ⟨he2, hc2⟩ := sweepCell_false nf d x n h
    refine ⟨he2, ?_⟩
    intro y hy
    rcases Nat.lt_succ_iff_lt_or_eq.mp hy with hy | rfl
    · exact hcs y hy
    · exact hc2

lemma sweepRow_of_conds (nf : NeigbourFunc) (x sy : Nat) (d : DijkstraMap) (b : Bool)
    (h : ∀ y < sy, cellCond nf d x y) : sweepRow nf x sy (d, b) = (d, b) := by
  induction sy with
  | zero => rfl
  | succ n ih =>
    rw [sweepRow_succ, ih (fun y hy => h y (Nat.lt_succ_of_lt hy)),
      sweepCell_of_cond nf d b x n (h n (Nat.lt_succ_self n))]

lemma sweepRow_true (nf : NeigbourFunc) (x sy : Nat) (d : DijkstraMap)
    (hx : x < d.M.SizeX) (hsy : sy ≤ d.M.SizeY)
    (h : (sweepRow nf x sy (d, false)).2 = true) :
    ∃ i j : Nat, i < d.M.SizeX ∧ j < d.M.SizeY ∧
      (sweepRow nf x sy (d, false)).1.Points (i : Int) (j : Int) <
        d.Points (i : Int) (j : Int) := by
  induction sy with
  | zero => exact absurd h (by simp [sweepRow_zero])
  | succ n ih =>
    rw [sweepRow_succ] at h ⊢
    by_cases hn : (sweepRow nf x n (d, false)).2 = true
    · obtain ⟨i, j, hi, hj, hlt⟩ := ih (le_trans (Nat.le_succ n) hsy) hn
      refine ⟨i, j, hi, hj, lt_of_le_of_lt (sweepCell_le nf _ x n _ _) hlt⟩
    · rw [Bool.not_eq_true] at hn
      obtain ⟨he, _⟩ := sweepRow_false nf x n d hn
      have hpair : sweepRow nf x n (d, false) = (d, false) := by
        have := Prod.mk.eta (p := sweepRow nf x n (d, false))
        rw [← this, he, hn]
      rw [hpair] at h ⊢
      exact sweepCell_true nf d x n hx (by omega) h

lemma sweepRows_zero (nf : NeigbourFunc) (sy : Nat) (a : DijkstraMap × Bool) :
    sweepRows nf 0 sy a = a := rfl

lemma sweepRows_succ (nf : NeigbourFunc) (n sy : Nat) (a : DijkstraMap × Bool) :
    sweepRows nf (n + 1) sy a = sweepRow nf n sy (sweepRows nf n sy a) := by
  unfold sweepRows
  rw [List.range_succ, List.foldl_append]
  rfl

lemma sweepRows_M (nf : NeigbourFunc) (sx sy : Nat) (a : DijkstraMap × Bool) :
    (sweepRows nf sx sy a).1.M = a.1.M := by
  induction sx with
  | zero => rfl
  | succ n ih => rw [sweepRows_succ, sweepRow_M, ih]

lemma sweepRows_le (nf : NeigbourFunc) (sx sy : Nat) (a : DijkstraMap × Bool) (i j : Int) :
    (sweepRows nf sx sy a).1.Points i j ≤ a.1.Points i j := by
  induction sx with
  | zero => exact le_rfl
  | succ n ih =>
    rw [sweepRows_succ]
    exact le_trans (sweepRow_le nf n sy _ i j) ih

lemma sweepRows_false (nf : NeigbourFunc) (sx sy : Nat) (d : DijkstraMap)
    (h : (sweepRows nf sx sy (d, false)).2 = false) :
    (sweepRows nf sx sy (d, false)).1 = d ∧ ∀ x < sx, ∀ y < sy, cellCond nf d x y := by
  induction sx with
  | zero => exact ⟨rfl, by omega⟩
  | succ n ih =>
    rw [sweepRows_succ] at h ⊢
    have hn : (sweepRows nf n sy (d, false)).2 = false := by
      by_contra hc
      rw [Bool.not_eq_false] at hc
      rw [sweepRow_flag_mono nf n sy _ hc] at h
      exact absurd h (by simp)
    obtain ⟨he, hcs⟩ := ih hn
    have hpair : sweepRows nf n sy (d, false) = (d, false) := by
      have := Prod.mk.eta (p := sweepRows nf n sy (d, false))
      rw [← this, he, hn]
    rw [hpair] at h ⊢
    obtain ⟨he2, hc2⟩ := sweepRow_false nf n sy d h
    refine ⟨he2, ?_⟩
    intro x hx
    rcases Nat.lt_succ_iff_lt_or_eq.mp hx with hx | rfl
    · exact hcs x hx
    · exact hc2

lemma sweepRows_of_conds (nf : NeigbourFunc) (sx sy : Nat) (d : DijkstraMap) (b : Bool)
    (h : ∀ x < sx, ∀ y < sy, cellCond nf d x y) : sweepRows nf sx sy (d, b) = (d, b) := by
  induction sx with
  | zero => rfl
  | succ n ih =>
    rw [sweepRows_succ, ih (fun x hx => h x (Nat.lt_succ_of_lt hx)),
      sweepRow_of_conds nf n sy d b (h n (Nat.lt_succ_self n))]

lemma sweepRows_true (nf : NeigbourFunc) (sx sy : Nat) (d : DijkstraMap)
    (hsx : sx ≤ d.M.SizeX) (hsy : sy ≤ d.M.SizeY)
    (h : (sweepRows nf sx sy (d, false)).2 = true) :
    ∃ i j : Nat, i < d.M.SizeX ∧ j < d.M.SizeY ∧
      (sweepRows nf sx sy (d, false)).1.Points (i : Int) (j : Int) <
        d.Points (i : Int) (j : Int) := by
  induction sx with
  | zero => exact absurd h (by simp [sweepRows_zero])
  | succ n ih =>
    rw [sweepRows_succ] at h ⊢
    by_cases hn : (sweepRows nf n sy (d, false)).2 = true
    · obtain ⟨i, j, hi, hj, hlt⟩ := ih (le_trans (Nat.le_succ n) hsx) hn
      refine ⟨i, j, hi, hj, lt_of_le_of_lt (sweepRow_le nf n sy _ _ _) hlt⟩
    · rw [Bool.not_eq_true] at hn
      obtain ⟨he, _⟩ := sweepRows_false nf n sy d hn
      have hpair : sweepRows nf n sy (d, false) = (d, false) := by
        have := Prod.mk.eta (p := sweepRows nf n sy (d, false))
        rw [← this, he, hn]
      rw [hpair] at h ⊢
      exact sweepRow_true nf n sy d (by omega) hsy h

/-! ### One full sweep and the mutation loop -/

lemma sweep_eq (nf : NeigbourFunc) (d : DijkstraMap) :
    sweep nf d = sweepRows nf d.M.SizeX d.M.SizeY (d, false) := rfl

lemma sweep_M (nf : NeigbourFunc) (d : DijkstraMap) : (sweep nf d).1.M = d.M := by
  rw [sweep_eq]; exact sweepRows_M nf _ _ _

lemma sweep_le (nf : NeigbourFunc) (d : DijkstraMap) (i j : Int) :
    (sweep nf d).1.Points i j ≤ d.Points i j := by
  rw [sweep_eq]; exact sweepRows_le nf _ _ _ i j

lemma sweep_false_eq (nf : NeigbourFunc) (d : DijkstraMap)
    (h : (sweep nf d).2 = false) : sweep nf d = (d, false) := by
  rw [sweep_eq] at h ⊢
  obtain ⟨he, _⟩ := sweepRows_false nf _ _ d h
  have := Prod.mk.eta (p := sweepRows nf d.M.SizeX d.M.SizeY (d, false))
  rw [← this, he, h]

lemma sweep_false_conds (nf : NeigbourFunc) (d : DijkstraMap)
    (h : (sweep nf d).2 = false) :
    ∀ x < d.M.SizeX, ∀ y < d.M.SizeY, cellCond nf d x y := by
  rw [sweep_eq] at h
  exact (sweepRows_false nf _ _ d h).2

lemma sweep_of_conds (nf : NeigbourFunc) (d : DijkstraMap)
    (h : ∀ x < d.M.SizeX, ∀ y < d.M.SizeY, cellCond nf d x y) :
    sweep nf d = (d, false) := by
  rw [sweep_eq]
  exact sweepRows_of_conds nf _ _ d false h

lemma sweep_sum_lt (nf : NeigbourFunc) (d : DijkstraMap)
    (h : (sweep nf d).2 = true) : sumRanks (sweep nf d).1 < sumRanks d := by
  obtain ⟨i, j, hi, hj, hlt⟩ := by
    rw [sweep_eq] at h
    exact sweepRows_true nf d.M.SizeX d.M.SizeY d le_rfl le_rfl h
  unfold sumRanks
  rw [sweep_M]
  refine Finset.sum_lt_sum (fun p _ => sweep_le nf d _ _) ⟨(i, j), ?_, ?_⟩
  · rw [Finset.mem_product, Finset.mem_range, Finset.mem_range]
    exact ⟨hi, hj⟩
  · rw [sweep_eq]
    exact hlt

lemma calcLoop_M (nf : NeigbourFunc) (fuel : Nat) (d : DijkstraMap) :
    (calcLoop nf fuel d).M = d.M := by
  induction fuel generalizing d with
  | zero => rfl
  | succ n ih =>
    show (if (sweep nf d).2 then calcLoop nf n (sweep nf d).1 else (sweep nf d).1).M = d.M
    split
    · rw [ih, sweep_M]
    · rw [sweep_M]

lemma calcLoop_le (nf : NeigbourFunc) (fuel : Nat) (d : DijkstraMap) (i j : Int) :
    (calcLoop nf fuel d).Points i j ≤ d.Points i j := by
  induction fuel generalizing d with
  | zero => exact le_rfl
  | succ n ih =>
    show (if (sweep nf d).2 then calcLoop nf n (sweep nf d).1 else (sweep nf d).1).Points i j ≤ _
    split
    · exact le_trans (ih (sweep nf d).1) (sweep_le nf d i j)
    · exact sweep_le nf d i j

lemma calcLoop_spec (nf : NeigbourFunc) :
    ∀ n d, sumRanks d < n → ∀ f, sumRanks d < f →
      calcLoop nf f d = calcLoop nf n d ∧
        sweep nf (calcLoop nf n d) = (calcLoop nf n d, false) := by
  intro n
  induction n with
  | zero => intro d h; exact absurd h (by omega)
  | succ n1 ih =>
    intro d h f hf
    cases f with
    | zero => exact absurd hf (by omega)
    | succ f1 =>
      have hunf : ∀ g : Nat, calcLoop nf (g + 1) d =
          if (sweep nf d).2 then calcLoop nf g (sweep nf d).1 else (sweep nf d).1 :=
        fun g => rfl
      by_cases hs : (sweep nf d).2 = true
      · have hlt := sweep_sum_lt nf d hs
        have h1 : sumRanks (sweep nf d).1 < n1 := by omega
        have h2 : sumRanks (sweep nf d).1 < f1 := by omega
        obtain ⟨he, hfix⟩ := ih (sweep nf d).1 h1 f1 h2
        rw [hunf f1, hunf n1, if_pos hs, if_pos hs]
        exact ⟨he, hfix⟩
      · rw [Bool.not_eq_true] at hs
        have heq := sweep_false_eq nf d hs
        have h1 : (sweep nf d).1 = d := by rw [heq]
        rw [hunf f1, hunf n1, if_neg (by rw [hs]; simp), if_neg (by rw [hs]; simp), h1]
        exact ⟨rfl, heq⟩

lemma Calc_fix (nf : NeigbourFunc) (d : DijkstraMap) (ts : List (Int × Int)) :
    sweep nf (Calc nf d ts) = (Calc nf d ts, false) := by
  unfold Calc
  exact (calcLoop_spec nf (calcFuel (setTargets d ts)) (setTargets d ts)
    (Nat.lt_succ_self _) (calcFuel (setTargets d ts)) (Nat.lt_succ_self _)).2

lemma Calc_fuel_suffices (nf : NeigbourFunc) (d : DijkstraMap) (ts : List (Int × Int))
    (f : Nat) (hf : calcFuel (setTargets d ts) ≤ f) :
    calcLoop nf f (setTargets d ts) = Calc nf d ts := by
  unfold Calc
  exact (calcLoop_spec nf (calcFuel (setTargets d ts)) (setTargets d ts)
    (Nat.lt_succ_self _) f (by unfold calcFuel at hf; omega)).1

/-! ### The target-setting phase -/

lemma setTargets_M (d : DijkstraMap) (ts : List (Int × Int)) :
    (setTargets d ts).M = d.M := by
  induction ts generalizing d with
  | nil => rfl
  | cons t ts ih =>
    show (setTargets (setPoint d t.1 t.2 0) ts).M = d.M
    rw [ih]
    rfl

lemma setTargets_points (d : DijkstraMap) (ts : List (Int × Int)) (a b : Int) :
    (setTargets d ts).Points a b = if (a, b) ∈ ts then 0 else d.Points a b := by
  induction ts generalizing d with
  | nil => simp [setTargets]
  | cons t ts ih =>
    show (setTargets (setPoint d t.1 t.2 0) ts).Points a b = _
    rw [ih]
    by_cases h1 : (a, b) ∈ ts
    · rw [if_pos h1, if_pos (List.mem_cons_of_mem t h1)]
    · rw [if_neg h1, setPoint_points]
      by_cases h2 : a = t.1 ∧ b = t.2
      · have hab : (a, b) = t := Prod.ext_iff.mpr ⟨h2.1, h2.2⟩
        rw [if_pos h2, if_pos (List.mem_cons.mpr (Or.inl hab))]
      · have hab : (a, b) ≠ t := fun hc => h2 ⟨(Prod.ext_iff.mp hc).1, (Prod.ext_iff.mp hc).2⟩
        rw [if_neg h2, if_neg (by rw [List.mem_cons]; rintro (hc | hc) <;> [exact hab hc; exact h1 hc])]

lemma Calc_M (nf : NeigbourFunc) (d : DijkstraMap) (ts : List (Int × Int)) :
    (Calc nf d ts).M = d.M := by
  unfold Calc
  rw [calcLoop_M, setTargets_M]

lemma Calc_le_setTargets (nf : NeigbourFunc) (d : DijkstraMap) (ts : List (Int × Int))
    (a b : Int) : (Calc nf d ts).Points a b ≤ (setTargets d ts).Points a b :=
  calcLoop_le nf _ _ a b

lemma Calc_target_zero (nf : NeigbourFunc) (d : DijkstraMap) (ts : List (Int × Int))
    (t : Int × Int) (ht : t ∈ ts) : (Calc nf d ts).Points t.1 t.2 = 0 := by
  have h1 := Calc_le_setTargets nf d ts t.1 t.2
  rw [setTargets_points, if_pos (by simpa using ht)] at h1
  exact Nat.le_zero.mp h1

/-! ### Offset topologies, reachability, and the reset loop -/

lemma manhattan_eq_offsets : ManhattanNeighbours = offsetNeighbours manhattanOffs := by
  funext d x y
  simp [ManhattanNeighbours, offsetNeighbours, manhattanOffs, sub_eq_add_neg]

lemma diagonal_eq_offsets : DiagonalNeighbours = offsetNeighbours diagonalOffs := by
  funext d x y
  simp [DiagonalNeighbours, offsetNeighbours, diagonalOffs, sub_eq_add_neg]

lemma mem_offsetNeighbours (offs : List (Int × Int)) (d : DijkstraMap) (x y : Int)
    (v : WeightedPoint) :
    v ∈ offsetNeighbours offs d x y ↔
      ∃ o ∈ offs, v = GetValPoint d (x + o.1) (y + o.2) := by
  simp only [offsetNeighbours, List.mem_map]
  constructor
  · rintro ⟨o, ho, rfl⟩; exact ⟨o, ho, rfl⟩
  · rintro ⟨o, ho, rfl⟩; exact ⟨o, ho, rfl⟩

lemma GetValPoint_val_le (d : DijkstraMap) (x y : Int)
    (hd : ∀ a b : Int, d.Points a b ≤ RankMax) : (GetValPoint d x y).Val ≤ RankMax := by
  unfold GetValPoint
  split
  · exact le_rfl
  · exact hd x y

lemma GetValPoint_not_oob (d : DijkstraMap) (x y : Int) (h : d.M.OOB x y = false) :
    GetValPoint d x y = { X := x, Y := y, Val := d.Points x y } := by
  unfold GetValPoint
  rw [h]
  simp

lemma LowestNeighbour_nil (nf : NeigbourFunc) (d : DijkstraMap) (x y : Int)
    (h : nf d x y = []) : LowestNeighbour nf d x y = { X := x, Y := y, Val := RankMax } := by
  unfold LowestNeighbour
  rw [h]

lemma reachB_zero_iff (m : Map) (offs ts : List (Int × Int)) (c : Int × Int) :
    reachB m offs ts 0 c = true ↔ c ∈ ts := by
  simp [reachB]

lemma reachB_succ_iff (m : Map) (offs ts : List (Int × Int)) (k : Nat) (c : Int × Int) :
    reachB m offs ts (k + 1) c = true ↔
      inDims m c.1 c.2 ∧ m.IsPassable c.1 c.2 = true ∧
        ∃ o ∈ offs, reachB m offs ts k (c.1 + o.1, c.2 + o.2) = true := by
  simp [reachB, List.any_eq_true, and_assoc]

lemma reachB_inDims (m : Map) (offs ts : List (Int × Int))
    (hts : ∀ t ∈ ts, inDims m t.1 t.2) (k : Nat) (c : Int × Int)
    (h : reachB m offs ts k c = true) : inDims m c.1 c.2 := by
  cases k with
  | zero => exact hts c ((reachB_zero_iff m offs ts c).mp h)
  | succ n => exact ((reachB_succ_iff m offs ts n c).mp h).1

lemma setPointRow_points (d : DijkstraMap) (i sy : Nat) (r : Nat) (a b : Int) :
    ((List.range sy).foldl (fun s (j : Nat) => setPoint s (i : Int) (j : Int) r) d).Points a b =
      if a = (i : Int) ∧ 0 ≤ b ∧ b < (sy : Int) then r else d.Points a b := by
  induction sy with
  | zero =>
    simp only [List.range_zero, List.foldl_nil]
    rw [if_neg (by omega)]
  | succ n ih =>
    rw [List.range_succ, List.foldl_append, List.foldl_cons, List.foldl_nil, setPoint_points, ih]
    by_cases h1 : a = (i : Int) ∧ b = (n : Int)
    · rw [if_pos h1, if_pos (by omega)]
    · rw [if_neg h1]
      by_cases h2 : a = (i : Int) ∧ 0 ≤ b ∧ b < (n : Int)
      · rw [if_pos h2, if_pos (by omega)]
      · rw [if_neg h2, if_neg (by omega)]

lemma setPointRow_M (d : DijkstraMap) (i sy : Nat) (r : Nat) :
    ((List.range sy).foldl (fun s (j : Nat) => setPoint s (i : Int) (j : Int) r) d).M = d.M := by
  induction sy with
  | zero => rfl
  | succ n ih => rw [List.range_succ, List.foldl_append, List.foldl_cons, List.foldl_nil,
      setPoint_M, ih]

lemma resetPoints_M (d : DijkstraMap) : (resetPoints d).M = d.M := by
  unfold resetPoints
  generalize d.M.SizeX = sx
  induction sx generalizing d with
  | zero => rfl
  | succ n ih =>
    rw [List.range_succ, List.foldl_append, List.foldl_cons, List.foldl_nil, setPointRow_M]
    exact ih d

lemma setPointGrid_points (d : DijkstraMap) (sx sy : Nat) (r : Nat) (a b : Int) :
    ((List.range sx).foldl
      (fun s (i : Nat) =>
        (List.range sy).foldl (fun t (j : Nat) => setPoint t (i : Int) (j : Int) r) s)
      d).Points a b =
      if 0 ≤ a ∧ a < (sx : Int) ∧ 0 ≤ b ∧ b < (sy : Int) then r else d.Points a b := by
  induction sx generalizing d with
  | zero =>
    simp only [List.range_zero, List.foldl_nil]
    rw [if_neg (by omega)]
  | succ n ih =>
    rw [List.range_succ, List.foldl_append, List.foldl_cons, List.foldl_nil,
      setPointRow_points, ih d]
    by_cases h1 : a = (n : Int) ∧ 0 ≤ b ∧ b < (sy : Int)
    · rw [if_pos h1, if_pos (by omega)]
    · rw [if_neg h1]
      by_cases h2 : 0 ≤ a ∧ a < (n : Int) ∧ 0 ≤ b ∧ b < (sy : Int)
      · rw [if_pos h2, if_pos (by omega)]
      · rw [if_neg h2, if_neg (by omega)]

lemma resetPoints_points (d : DijkstraMap) (a b : Int) :
    (resetPoints d).Points a b =
      if inDims d.M a b then RankMax else d.Points a b := by
  unfold resetPoints
  rw [setPointGrid_points]

/-! ### The rank invariant maintained by `Calc` -/

lemma relaxAt_inv (m : Map) (offs ts : List (Int × Int)) (nf : NeigbourFunc)
    (d : DijkstraMap) (x y : Int)
    (hnf : nf = offsetNeighbours offs) (hm : d.M = m)
    (hin : inDims m x y)
    (hI : CalcInv m offs ts d) : CalcInv m offs ts (relaxAt nf d x y).1 := by
  rw [relaxAt_eq]
  split
  · next hc =>
    obtain ⟨hp, hlt⟩ := hc
    have hmax : ∀ w ∈ nf d x y, w.Val ≤ RankMax := by
      intro w hw
      rw [hnf] at hw
      obtain ⟨o, _, rfl⟩ := (mem_offsetNeighbours offs d x y w).mp hw
      exact GetValPoint_val_le d _ _ (fun a b => (hI a b).1)
    have hln : (LowestNeighbour nf d x y).Val ≤ RankMax :=
      LowestNeighbour_val_le_max nf d x y hmax
    have hmod : ((LowestNeighbour nf d x y).Val + 1) % 65536 =
        (LowestNeighbour nf d x y).Val + 1 := by
      apply Nat.mod_eq_of_lt
      rw [RankMax_eq] at hln
      omega
    intro a b
    rw [setPoint_points]
    split
    · next hab =>
      obtain ⟨rfl, rfl⟩ := hab
      have hvlt : ((LowestNeighbour nf d a b).Val + 1) % 65536 < RankMax :=
        lt_of_lt_of_le hlt (hI a b).1
      refine ⟨le_of_lt hvlt, fun _ => ?_⟩
      rw [hmod] at hvlt ⊢
      have hlnlt : (LowestNeighbour nf d a b).Val < RankMax := by omega
      have hne : nf d a b ≠ [] := by
        intro hnil
        rw [LowestNeighbour_nil nf d a b hnil] at hlnlt
        exact absurd hlnlt (lt_irrefl _)
      have hmem := LowestNeighbour_mem nf d a b hne
      obtain ⟨o, ho, heq⟩ := (mem_offsetNeighbours offs d a b _).mp (hnf ▸ hmem)
      rw [← hnf] at heq
      have hoob : m.OOB (a + o.1) (b + o.2) = false := by
        by_contra hcon
        rw [Bool.not_eq_false] at hcon
        have hval : GetValPoint d (a + o.1) (b + o.2) =
            { X := a + o.1, Y := b + o.2, Val := RankMax } := by
          unfold GetValPoint
          rw [hm, hcon]
          simp
        rw [heq, hval] at hlnlt
        exact absurd hlnlt (lt_irrefl _)
      have hval : GetValPoint d (a + o.1) (b + o.2) =
          { X := a + o.1, Y := b + o.2, Val := d.Points (a + o.1) (b + o.2) } :=
        GetValPoint_not_oob d _ _ (by rw [hm]; exact hoob)
      have hpts : d.Points (a + o.1) (b + o.2) = (LowestNeighbour nf d a b).Val := by
        rw [heq, hval]
      have hreach : reachB m offs ts (d.Points (a + o.1) (b + o.2)) (a + o.1, b + o.2) = true :=
        (hI (a + o.1) (b + o.2)).2 (by rw [hpts]; exact hlnlt)
      rw [reachB_succ_iff]
      refine ⟨hin, by rw [← hm]; exact hp, o, ho, ?_⟩
      rw [← hpts]
      exact hreach
    · exact hI a b
  · exact hI

lemma sweepCell_inv (m : Map) (offs ts : List (Int × Int)) (nf : NeigbourFunc)
    (a : DijkstraMap × Bool) (x y : Nat)
    (hnf : nf = offsetNeighbours offs) (hm : a.1.M = m)
    (hx : x < m.SizeX) (hy : y < m.SizeY)
    (hI : CalcInv m offs ts a.1) : CalcInv m offs ts (sweepCell nf a x y).1 := by
  simp only [sweepCell]
  have hm1 : (relaxAt nf a.1 (x : Int) (y : Int)).1.M = m := by rw [relaxAt_M, hm]
  have h1 : CalcInv m offs ts (relaxAt nf a.1 (x : Int) (y : Int)).1 :=
    relaxAt_inv m offs ts nf a.1 _ _ hnf hm (by unfold inDims; omega) hI
  rw [hm1]
  exact relaxAt_inv m offs ts nf _ _ _ hnf hm1 (by unfold inDims; omega) h1

lemma sweepRow_inv (m : Map) (offs ts : List (Int × Int)) (nf : NeigbourFunc)
    (x sy : Nat) (a : DijkstraMap × Bool)
    (hnf : nf = offsetNeighbours offs) (hm : a.1.M = m)
    (hx : x < m.SizeX) (hsy : sy ≤ m.SizeY)
    (hI : CalcInv m offs ts a.1) : CalcInv m offs ts (sweepRow nf x sy a).1 := by
  induction sy with
  | zero => exact hI
  | succ n ih =>
    rw [sweepRow_succ]
    exact sweepCell_inv m offs ts nf _ x n hnf (by rw [sweepRow_M, hm]) hx (by omega)
      (ih (by omega))

lemma sweepRows_inv (m : Map) (offs ts : List (Int × Int)) (nf : NeigbourFunc)
    (sx sy : Nat) (a : DijkstraMap × Bool)
    (hnf : nf = offsetNeighbours offs) (hm : a.1.M = m)
    (hsx : sx ≤ m.SizeX) (hsy : sy ≤ m.SizeY)
    (hI : CalcInv m offs ts a.1) : CalcInv m offs ts (sweepRows nf sx sy a).1 := by
  induction sx with
  | zero => exact hI
  | succ n ih =>
    rw [sweepRows_succ]
    exact sweepRow_inv m offs ts nf n sy _ hnf (by rw [sweepRows_M, hm]) (by omega) hsy
      (ih (by omega))

lemma sweep_inv (m : Map) (offs ts : List (Int × Int)) (nf : NeigbourFunc) (d : DijkstraMap)
    (hnf : nf = offsetNeighbours offs) (hm : d.M = m)
    (hI : CalcInv m offs ts d) : CalcInv m offs ts (sweep nf d).1 := by
  rw [sweep_eq]
  rw [hm]
  exact sweepRows_inv m offs ts nf m.SizeX m.SizeY (d, false) hnf hm le_rfl le_rfl hI

lemma calcLoop_inv (m : Map) (offs ts : List (Int × Int)) (nf : NeigbourFunc)
    (fuel : Nat) (d : DijkstraMap)
    (hnf : nf = offsetNeighbours offs) (hm : d.M = m)
    (hI : CalcInv m offs ts d) : CalcInv m offs ts (calcLoop nf fuel d) := by
  induction fuel generalizing d with
  | zero => exact hI
  | succ n ih =>
    show CalcInv m offs ts (if (sweep nf d).2 then calcLoop nf n (sweep nf d).1 else (sweep nf d).1)
    have hsw := sweep_inv m offs ts nf d hnf hm hI
    split
    · exact ih (sweep nf d).1 (by rw [sweep_M, hm]) hsw
    · exact hsw

lemma setTargets_blank_inv (m : Map) (offs ts : List (Int × Int)) :
    CalcInv m offs ts (setTargets (BlankDMap m) ts) := by
  intro a b
  rw [setTargets_points]
  split
  · next hmem =>
    refine ⟨by unfold RankMax; omega, fun _ => ?_⟩
    rw [reachB_zero_iff]
    exact hmem
  · exact ⟨le_rfl, fun hlt => absurd hlt (lt_irrefl _)⟩

lemma Calc_blank_inv (m : Map) (offs ts : List (Int × Int)) (nf : NeigbourFunc)
    (hnf : nf = offsetNeighbours offs) :
    CalcInv m offs ts (Calc nf (BlankDMap m) ts) := by
  unfold Calc
  exact calcLoop_inv m offs ts nf _ _ hnf (by rw [setTargets_M]; rfl)
    (setTargets_blank_inv m offs ts)

/-! ### Ranks at the fixed point -/

lemma fixpoint_upper (m : Map) (offs ts : List (Int × Int)) (nf : NeigbourFunc)
    (d : DijkstraMap)
    (hnf : nf = offsetNeighbours offs) (hm : d.M = m)
    (hOOB : ∀ i j : Int, m.OOB i j = true ↔ ¬ inDims m i j)
    (hts : ∀ t ∈ ts, inDims m t.1 t.2)
    (hI : CalcInv m offs ts d)
    (h0 : ∀ t ∈ ts, d.Points t.1 t.2 = 0)
    (hfix : ∀ x < m.SizeX, ∀ y < m.SizeY, cellCond nf d x y) :
    ∀ k (c : Int × Int), reachB m offs ts k c = true → d.Points c.1 c.2 ≤ k := by
  intro k
  induction k with
  | zero =>
    intro c hc
    rw [h0 c ((reachB_zero_iff m offs ts c).mp hc)]
  | succ n ih =>
    intro c hc
    rw [reachB_succ_iff] at hc
    obtain ⟨hin, hp, o, ho, hro⟩ := hc
    have hx : c.1.toNat < m.SizeX := by
      unfold inDims at hin
      omega
    have hy : c.2.toNat < m.SizeY := by
      unfold inDims at hin
      omega
    have hrelax := (hfix c.1.toNat hx c.2.toNat hy).1
    have e1 : ((c.1.toNat : Nat) : Int) = c.1 := by
      unfold inDims at hin
      omega
    have e2 : ((c.2.toNat : Nat) : Int) = c.2 := by
      unfold inDims at hin
      omega
    rw [e1, e2] at hrelax
    have hple := hrelax (by rw [hm]; exact hp)
    have hle : d.Points c.1 c.2 ≤ ((LowestNeighbour nf d c.1 c.2).Val + 1) % 65536 :=
      Nat.le_of_not_lt hple
    -- bound the lowest neighbour by the sample in direction o
    have hmax : ∀ w ∈ nf d c.1 c.2, w.Val ≤ RankMax := by
      intro w hw
      rw [hnf] at hw
      obtain ⟨o2, _, rfl⟩ := (mem_offsetNeighbours offs d c.1 c.2 w).mp hw
      exact GetValPoint_val_le d _ _ (fun a b => (hI a b).1)
    have hsample : GetValPoint d (c.1 + o.1) (c.2 + o.2) ∈ nf d c.1 c.2 := by
      rw [hnf]
      exact (mem_offsetNeighbours offs d c.1 c.2 _).mpr ⟨o, ho, rfl⟩
    have hln_le := LowestNeighbour_val_le nf d c.1 c.2 hmax _ hsample
    -- the sample reads the live rank of an in-dimension cell
    have hnin : inDims m (c.1 + o.1) (c.2 + o.2) := reachB_inDims m offs ts hts n _ hro
    have hnoob : m.OOB (c.1 + o.1) (c.2 + o.2) = false := by
      by_contra hcon
      rw [Bool.not_eq_false] at hcon
      exact absurd hnin ((hOOB _ _).mp hcon)
    have hval : GetValPoint d (c.1 + o.1) (c.2 + o.2) =
        { X := c.1 + o.1, Y := c.2 + o.2, Val := d.Points (c.1 + o.1) (c.2 + o.2) } :=
      GetValPoint_not_oob d _ _ (by rw [hm]; exact hnoob)
    rw [hval] at hln_le
    have hln_le2 : (LowestNeighbour nf d c.1 c.2).Val ≤ d.Points (c.1 + o.1) (c.2 + o.2) :=
      hln_le
    have hnb : d.Points (c.1 + o.1) (c.2 + o.2) ≤ n := ih (c.1 + o.1, c.2 + o.2) hro
    calc d.Points c.1 c.2 ≤ ((LowestNeighbour nf d c.1 c.2).Val + 1) % 65536 := hle
      _ ≤ (LowestNeighbour nf d c.1 c.2).Val + 1 := Nat.mod_le _ _
      _ ≤ d.Points (c.1 + o.1) (c.2 + o.2) + 1 := by omega
      _ ≤ n + 1 := by omega

lemma Calc_blank_correct (m : Map) (offs ts : List (Int × Int)) (nf : NeigbourFunc)
    (hnf : nf = offsetNeighbours offs)
    (hOOB : ∀ i j : Int, m.OOB i j = true ↔ ¬ inDims m i j)
    (hts : ∀ t ∈ ts, inDims m t.1 t.2) :
    (∀ k (c : Int × Int), reachB m offs ts k c = true →
      (Calc nf (BlankDMap m) ts).Points c.1 c.2 ≤ k) ∧
    (∀ a b : Int, (Calc nf (BlankDMap m) ts).Points a b ≤ RankMax ∧
      ((Calc nf (BlankDMap m) ts).Points a b < RankMax →
        reachB m offs ts ((Calc nf (BlankDMap m) ts).Points a b) (a, b) = true)) := by
  have hI := Calc_blank_inv m offs ts nf hnf
  have hMF : (Calc nf (BlankDMap m) ts).M = m := Calc_M nf (BlankDMap m) ts
  have hfixp := Calc_fix nf (BlankDMap m) ts
  have hconds := sweep_false_conds nf (Calc nf (BlankDMap m) ts) (by rw [hfixp])
  rw [hMF] at hconds
  have h0 : ∀ t ∈ ts, (Calc nf (BlankDMap m) ts).Points t.1 t.2 = 0 :=
    fun t ht => Calc_target_zero nf (BlankDMap m) ts t ht
  exact ⟨fixpoint_upper m offs ts nf _ hnf hMF hOOB hts hI h0 hconds, hI⟩

lemma Calc_blank_dist (m : Map) (offs ts : List (Int × Int)) (nf : NeigbourFunc)
    (x y : Int) (k : Nat)
    (hnf : nf = offsetNeighbours offs)
    (hOOB : ∀ i j : Int, m.OOB i j = true ↔ ¬ inDims m i j)
    (hts : ∀ t ∈ ts, inDims m t.1 t.2)
    (hmin : ReachMin m offs ts k (x, y)) (hk : k ≤ RankMax) :
    (Calc nf (BlankDMap m) ts).Points x y = k := by
  obtain ⟨hup, hlow⟩ := Calc_blank_correct m offs ts nf hnf hOOB hts
  have h1 : (Calc nf (BlankDMap m) ts).Points x y ≤ k := hup k (x, y) hmin.1
  rcases Nat.lt_or_ge ((Calc nf (BlankDMap m) ts).Points x y) RankMax with hlt | hge
  · have hr := (hlow x y).2 hlt
    have := hmin.2 _ hr
    omega
  · have := (hlow x y).1
    omega

lemma Calc_blank_far (m : Map) (offs ts : List (Int × Int)) (nf : NeigbourFunc)
    (x y : Int)
    (hnf : nf = offsetNeighbours offs)
    (hOOB : ∀ i j : Int, m.OOB i j = true ↔ ¬ inDims m i j)
    (hts : ∀ t ∈ ts, inDims m t.1 t.2)
    (hfar : ∀ j, reachB m offs ts j (x, y) = true → RankMax < j) :
    (Calc nf (BlankDMap m) ts).Points x y = RankMax := by
  obtain ⟨hup, hlow⟩ := Calc_blank_correct m offs ts nf hnf hOOB hts
  rcases Nat.lt_or_ge ((Calc nf (BlankDMap m) ts).Points x y) RankMax with hlt | hge
  · have hr := (hlow x y).2 hlt
    have := hfar _ hr
    omega
  · have := (hlow x y).1
    omega

/-! ### A blank map is already a fixed point (no targets, no mutation) -/

lemma GetValPoint_blank_val (m : Map) (x y : Int) :
    (GetValPoint (BlankDMap m) x y).Val = RankMax := by
  unfold GetValPoint BlankDMap
  split <;> rfl

lemma LowestNeighbour_blank_val (offs : List (Int × Int)) (m : Map) (x y : Int) :
    (LowestNeighbour (offsetNeighbours offs) (BlankDMap m) x y).Val = RankMax := by
  by_cases hne : offsetNeighbours offs (BlankDMap m) x y = []
  · rw [LowestNeighbour_nil _ _ _ _ hne]
  · have hmem := LowestNeighbour_mem (offsetNeighbours offs) (BlankDMap m) x y hne
    obtain ⟨o, _, heq⟩ := (mem_offsetNeighbours offs (BlankDMap m) x y _).mp hmem
    rw [heq, GetValPoint_blank_val]

lemma relaxCond_blank (offs : List (Int × Int)) (m : Map) (x y : Int) :
    relaxCond (offsetNeighbours offs) (BlankDMap m) x y := by
  intro _
  rw [LowestNeighbour_blank_val, RankMax_eq]
  show ¬ ((65525 + 1) % 65536 < (BlankDMap m).Points x y)
  show ¬ ((65525 + 1) % 65536 < RankMax)
  rw [RankMax_eq]
  omega

lemma sweep_blank (offs : List (Int × Int)) (m : Map) :
    sweep (offsetNeighbours offs) (BlankDMap m) = (BlankDMap m, false) :=
  sweep_of_conds _ _ fun _ _ _ _ => ⟨relaxCond_blank offs m _ _, relaxCond_blank offs m _ _⟩

lemma Calc_blank_no_targets (offs : List (Int × Int)) (m : Map) :
    Calc (offsetNeighbours offs) (BlankDMap m) [] = BlankDMap m := by
  show calcLoop (offsetNeighbours offs) (sumRanks (BlankDMap m) + 1) (BlankDMap m) = BlankDMap m
  show (if (sweep (offsetNeighbours offs) (BlankDMap m)).2 then
      calcLoop (offsetNeighbours offs) (sumRanks (BlankDMap m)) (sweep (offsetNeighbours offs) (BlankDMap m)).1
    else (sweep (offsetNeighbours offs) (BlankDMap m)).1) = BlankDMap m
  rw [sweep_blank]
  simp

lemma resetPoints_blank (m : Map) : resetPoints (BlankDMap m) = BlankDMap m := by
  ext a b
  · rw [resetPoints_points]
    split <;> rfl
  · rw [resetPoints_M]

lemma Recalc_blank_no_targets (offs : List (Int × Int)) (m : Map) :
    Recalc (offsetNeighbours offs) (BlankDMap m) [] = BlankDMap m := by
  unfold Recalc
  rw [resetPoints_blank]
  exact Calc_blank_no_targets offs m

/-! ### The converged field is a fixed point of `Calc` itself -/

lemma setTargets_self (d : DijkstraMap) (ts : List (Int × Int))
    (h0 : ∀ t ∈ ts, d.Points t.1 t.2 = 0) : setTargets d ts = d := by
  ext a b
  · rw [setTargets_points]
    split
    · next hmem => exact (h0 (a, b) hmem).symm
    · rfl
  · rw [setTargets_M]

lemma Calc_idem (nf : NeigbourFunc) (d : DijkstraMap) (ts : List (Int × Int)) :
    Calc nf (Calc nf d ts) ts = Calc nf d ts := by
  have hs : setTargets (Calc nf d ts) ts = Calc nf d ts :=
    setTargets_self _ ts fun t ht => Calc_target_zero nf d ts t ht
  show calcLoop nf (calcFuel (setTargets (Calc nf d ts) ts)) (setTargets (Calc nf d ts) ts) =
    Calc nf d ts
  rw [hs]
  show (if (sweep nf (Calc nf d ts)).2 then
      calcLoop nf (sumRanks (Calc nf d ts)) (sweep nf (Calc nf d ts)).1
    else (sweep nf (Calc nf d ts)).1) = Calc nf d ts
  rw [Calc_fix]
  simp

/-! ### Rank bounds (no overflow) -/

lemma LowestNeighbour_bound (offs : List (Int × Int)) (d : DijkstraMap) (x y : Int)
    (hd : ∀ a b : Int, d.Points a b ≤ RankMax) :
    (LowestNeighbour (offsetNeighbours offs) d x y).Val ≤ RankMax := by
  apply LowestNeighbour_val_le_max
  intro w hw
  obtain ⟨o, _, rfl⟩ := (mem_offsetNeighbours offs d x y w).mp hw
  exact GetValPoint_val_le d _ _ hd

/-! ### `Calc` depends only on the in-dimension cells -/

lemma GetValPoint_congr (m : Map) (d1 d2 : DijkstraMap) (x y : Int)
    (hm1 : d1.M = m) (hm2 : d2.M = m)
    (hOOB : ∀ i j : Int, m.OOB i j = true ↔ ¬ inDims m i j)
    (hpts : ∀ i j : Int, inDims m i j → d1.Points i j = d2.Points i j) :
    GetValPoint d1 x y = GetValPoint d2 x y := by
  unfold GetValPoint
  rw [hm1, hm2]
  by_cases h : m.OOB x y = true
  · rw [h]
    simp
  · rw [Bool.not_eq_true] at h
    rw [h]
    have hin : inDims m x y := by
      by_contra hc
      have hcon := (hOOB x y).mpr hc
      rw [h] at hcon
      exact Bool.false_ne_true hcon
    simp only [Bool.false_eq_true, if_false]
    rw [hpts x y hin]

lemma offsetNeighbours_congr (m : Map) (offs : List (Int × Int)) (d1 d2 : DijkstraMap)
    (x y : Int) (hm1 : d1.M = m) (hm2 : d2.M = m)
    (hOOB : ∀ i j : Int, m.OOB i j = true ↔ ¬ inDims m i j)
    (hpts : ∀ i j : Int, inDims m i j → d1.Points i j = d2.Points i j) :
    offsetNeighbours offs d1 x y = offsetNeighbours offs d2 x y := by
  unfold offsetNeighbours
  induction offs with
  | nil => rfl
  | cons o os ih =>
    rw [List.map_cons, List.map_cons, ih,
      GetValPoint_congr m d1 d2 _ _ hm1 hm2 hOOB hpts]

lemma LowestNeighbour_congr (m : Map) (offs : List (Int × Int)) (d1 d2 : DijkstraMap)
    (x y : Int) (hm1 : d1.M = m) (hm2 : d2.M = m)
    (hOOB : ∀ i j : Int, m.OOB i j = true ↔ ¬ inDims m i j)
    (hpts : ∀ i j : Int, inDims m i j → d1.Points i j = d2.Points i j) :
    LowestNeighbour (offsetNeighbours offs) d1 x y =
      LowestNeighbour (offsetNeighbours offs) d2 x y := by
  unfold LowestNeighbour
  rw [offsetNeighbours_congr m offs d1 d2 x y hm1 hm2 hOOB hpts]

lemma relaxAt_congr (m : Map) (offs : List (Int × Int)) (nf : NeigbourFunc)
    (hnf : nf = offsetNeighbours offs) (d1 d2 : DijkstraMap) (x y : Int)
    (hm1 : d1.M = m) (hm2 : d2.M = m)
    (hOOB : ∀ i j : Int, m.OOB i j = true ↔ ¬ inDims m i j)
    (hin : inDims m x y)
    (hpts : ∀ i j : Int, inDims m i j → d1.Points i j = d2.Points i j) :
    (relaxAt nf d1 x y).2 = (relaxAt nf d2 x y).2 ∧
      ∀ i j : Int, inDims m i j →
        (relaxAt nf d1 x y).1.Points i j = (relaxAt nf d2 x y).1.Points i j := by
  subst hnf
  have hL := LowestNeighbour_congr m offs d1 d2 x y hm1 hm2 hOOB hpts
  have hp := hpts x y hin
  rw [relaxAt_eq, relaxAt_eq, hm1, hm2, ← hL, ← hp]
  by_cases hc : m.IsPassable x y = true ∧
      ((LowestNeighbour (offsetNeighbours offs) d1 x y).Val + 1) % 65536 < d1.Points x y
  · rw [if_pos hc, if_pos hc]
    refine ⟨rfl, ?_⟩
    intro i j hin2
    rw [setPoint_points, setPoint_points]
    split
    · rfl
    · exact hpts i j hin2
  · rw [if_neg hc, if_neg hc]
    exact ⟨rfl, hpts⟩

lemma sweepCell_congr (m : Map) (offs : List (Int × Int)) (nf : NeigbourFunc)
    (hnf : nf = offsetNeighbours offs) (a1 a2 : DijkstraMap × Bool) (x y : Nat)
    (hm1 : a1.1.M = m) (hm2 : a2.1.M = m) (hflag : a1.2 = a2.2)
    (hOOB : ∀ i j : Int, m.OOB i j = true ↔ ¬ inDims m i j)
    (hx : x < m.SizeX) (hy : y < m.SizeY)
    (hpts : ∀ i j : Int, inDims m i j → a1.1.Points i j = a2.1.Points i j) :
    (sweepCell nf a1 x y).2 = (sweepCell nf a2 x y).2 ∧
      ∀ i j : Int, inDims m i j →
        (sweepCell nf a1 x y).1.Points i j = (sweepCell nf a2 x y).1.Points i j := by
  simp only [sweepCell]
  obtain ⟨hf1, hp1⟩ := relaxAt_congr m offs nf hnf a1.1 a2.1 (x : Int) (y : Int) hm1 hm2 hOOB
    (by unfold inDims; omega) hpts
  have hm1b : (relaxAt nf a1.1 (x : Int) (y : Int)).1.M = m := by rw [relaxAt_M, hm1]
  have hm2b : (relaxAt nf a2.1 (x : Int) (y : Int)).1.M = m := by rw [relaxAt_M, hm2]
  rw [hm1b, hm2b]
  obtain ⟨hf2, hp2⟩ := relaxAt_congr m offs nf hnf _ _
    (((m.SizeX : Int) - 1) - (x : Int)) (((m.SizeY : Int) - 1) - (y : Int)) hm1b hm2b hOOB
    (by unfold inDims; omega) hp1
  exact ⟨by rw [hflag, hf1, hf2], hp2⟩

lemma sweepRow_congr (m : Map) (offs : List (Int × Int)) (nf : NeigbourFunc)
    (hnf : nf = offsetNeighbours offs) (x sy : Nat) (a1 a2 : DijkstraMap × Bool)
    (hm1 : a1.1.M = m) (hm2 : a2.1.M = m) (hflag : a1.2 = a2.2)
    (hOOB : ∀ i j : Int, m.OOB i j = true ↔ ¬ inDims m i j)
    (hx : x < m.SizeX) (hsy : sy ≤ m.SizeY)
    (hpts : ∀ i j : Int, inDims m i j → a1.1.Points i j = a2.1.Points i j) :
    (sweepRow nf x sy a1).2 = (sweepRow nf x sy a2).2 ∧
      ∀ i j : Int, inDims m i j →
        (sweepRow nf x sy a1).1.Points i j = (sweepRow nf x sy a2).1.Points i j := by
  induction sy with
  | zero => exact ⟨hflag, hpts⟩
  | succ n ih =>
    obtain ⟨hf, hp⟩ := ih (by omega)
    rw [sweepRow_succ, sweepRow_succ]
    exact sweepCell_congr m offs nf hnf _ _ x n (by rw [sweepRow_M, hm1])
      (by rw [sweepRow_M, hm2]) hf hOOB hx (by omega) hp

lemma sweepRows_congr (m : Map) (offs : List (Int × Int)) (nf : NeigbourFunc)
    (hnf : nf = offsetNeighbours offs) (sx sy : Nat) (a1 a2 : DijkstraMap × Bool)
    (hm1 : a1.1.M = m) (hm2 : a2.1.M = m) (hflag : a1.2 = a2.2)
    (hOOB : ∀ i j : Int, m.OOB i j = true ↔ ¬ inDims m i j)
    (hsx : sx ≤ m.SizeX) (hsy : sy ≤ m.SizeY)
    (hpts : ∀ i j : Int, inDims m i j → a1.1.Points i j = a2.1.Points i j) :
    (sweepRows nf sx sy a1).2 = (sweepRows nf sx sy a2).2 ∧
      ∀ i j : Int, inDims m i j →
        (sweepRows nf sx sy a1).1.Points i j = (sweepRows nf sx sy a2).1.Points i j := by
  induction sx with
  | zero => exact ⟨hflag, hpts⟩
  | succ n ih =>
    obtain ⟨hf, hp⟩ := ih (by omega)
    rw [sweepRows_succ, sweepRows_succ]
    exact sweepRow_congr m offs nf hnf n sy _ _ (by rw [sweepRows_M, hm1])
      (by rw [sweepRows_M, hm2]) hf hOOB (by omega) hsy hp

lemma sweep_congr (m : Map) (offs : List (Int × Int)) (nf : NeigbourFunc)
    (hnf : nf = offsetNeighbours offs) (d1 d2 : DijkstraMap)
    (hm1 : d1.M = m) (hm2 : d2.M = m)
    (hOOB : ∀ i j : Int, m.OOB i j = true ↔ ¬ inDims m i j)
    (hpts : ∀ i j : Int, inDims m i j → d1.Points i j = d2.Points i j) :
    (sweep nf d1).2 = (sweep nf d2).2 ∧
      ∀ i j : Int, inDims m i j →
        (sweep nf d1).1.Points i j = (sweep nf d2).1.Points i j := by
  rw [sweep_eq, sweep_eq, hm1, hm2]
  exact sweepRows_congr m offs nf hnf m.SizeX m.SizeY (d1, false) (d2, false) hm1 hm2 rfl
    hOOB le_rfl le_rfl hpts

lemma sumRanks_congr (m : Map) (d1 d2 : DijkstraMap)
    (hm1 : d1.M = m) (hm2 : d2.M = m)
    (hpts : ∀ i j : Int, inDims m i j → d1.Points i j = d2.Points i j) :
    sumRanks d1 = sumRanks d2 := by
  unfold sumRanks
  rw [hm1, hm2]
  apply Finset.sum_congr rfl
  intro p hp
  rw [Finset.mem_product, Finset.mem_range, Finset.mem_range] at hp
  exact hpts _ _ (by unfold inDims; omega)

lemma calcLoop_congr (m : Map) (offs : List (Int × Int)) (nf : NeigbourFunc)
    (hnf : nf = offsetNeighbours offs) (fuel : Nat) (d1 d2 : DijkstraMap)
    (hm1 : d1.M = m) (hm2 : d2.M = m)
    (hOOB : ∀ i j : Int, m.OOB i j = true ↔ ¬ inDims m i j)
    (hpts : ∀ i j : Int, inDims m i j → d1.Points i j = d2.Points i j) :
    ∀ i j : Int, inDims m i j →
      (calcLoop nf fuel d1).Points i j = (calcLoop nf fuel d2).Points i j := by
  induction fuel generalizing d1 d2 with
  | zero => exact hpts
  | succ n ih =>
    obtain ⟨hf, hp⟩ := sweep_congr m offs nf hnf d1 d2 hm1 hm2 hOOB hpts
    show ∀ i j : Int, inDims m i j →
      (if (sweep nf d1).2 then calcLoop nf n (sweep nf d1).1 else (sweep nf d1).1).Points i j =
        (if (sweep nf d2).2 then calcLoop nf n (sweep nf d2).1 else (sweep nf d2).1).Points i j
    rw [← hf]
    by_cases hs : (sweep nf d1).2 = true
    · rw [if_pos hs, if_pos hs]
      exact ih _ _ (by rw [sweep_M, hm1]) (by rw [sweep_M, hm2]) hp
    · rw [Bool.not_eq_true] at hs
      rw [hs]
      simp only [Bool.false_eq_true, if_false]
      exact hp

lemma setTargets_congr (m : Map) (d1 d2 : DijkstraMap) (ts : List (Int × Int))
    (hpts : ∀ i j : Int, inDims m i j → d1.Points i j = d2.Points i j) :
    ∀ i j : Int, inDims m i j →
      (setTargets d1 ts).Points i j = (setTargets d2 ts).Points i j := by
  intro i j hin
  rw [setTargets_points, setTargets_points]
  split
  · rfl
  · exact hpts i j hin

lemma Calc_congr (m : Map) (offs : List (Int × Int)) (nf : NeigbourFunc)
    (hnf : nf = offsetNeighbours offs) (d1 d2 : DijkstraMap) (ts : List (Int × Int))
    (hm1 : d1.M = m) (hm2 : d2.M = m)
    (hOOB : ∀ i j : Int, m.OOB i j = true ↔ ¬ inDims m i j)
    (hpts : ∀ i j : Int, inDims m i j → d1.Points i j = d2.Points i j) :
    ∀ i j : Int, inDims m i j → (Calc nf d1 ts).Points i j = (Calc nf d2 ts).Points i j := by
  unfold Calc
  have hm1t : (setTargets d1 ts).M = m := by rw [setTargets_M, hm1]
  have hm2t : (setTargets d2 ts).M = m := by rw [setTargets_M, hm2]
  have hptst := setTargets_congr m d1 d2 ts hpts
  have hfuel : calcFuel (setTargets d1 ts) = calcFuel (setTargets d2 ts) := by
    unfold calcFuel
    rw [sumRanks_congr m _ _ hm1t hm2t hptst]
  rw [hfuel]
  exact calcLoop_congr m offs nf hnf _ _ _ hm1t hm2t hOOB hptst

/-! ### Recalc versus blank-then-calc -/

lemma mkGridMap_OOB (sx sy : Nat) (p : Int → Int → Bool) :
    ∀ i j : Int, (mkGridMap sx sy p).OOB i j = true ↔ ¬ inDims (mkGridMap sx sy p) i j := by
  intro i j
  unfold mkGridMap inDims
  simp only [Bool.not_eq_true', Bool.not_eq_false]
  simp [and_assoc]

lemma Recalc_points_eq_blank_calc (m : Map) (offs : List (Int × Int)) (nf : NeigbourFunc)
    (hnf : nf = offsetNeighbours offs) (d : DijkstraMap) (ts : List (Int × Int))
    (hm : d.M = m)
    (hOOB : ∀ i j : Int, m.OOB i j = true ↔ ¬ inDims m i j) :
    ∀ i j : Int, inDims m i j →
      (Recalc nf d ts).Points i j = (Calc nf (BlankDMap m) ts).Points i j := by
  unfold Recalc
  apply Calc_congr m offs nf hnf (resetPoints d) (BlankDMap m) ts
    (by rw [resetPoints_M, hm]) rfl hOOB
  intro i j hin
  rw [resetPoints_points, if_pos (by rw [hm]; exact hin)]
  rfl

/-! ### The 1 by 70000 line grid: a reachable cell farther than RankMax -/

lemma line_reach : ∀ k : Nat, k < 70000 →
    reachB lineMap manhattanOffs [((0 : Int), (0 : Int))] k ((0 : Int), (k : Int)) = true := by
  intro k
  induction k with
  | zero =>
    intro _
    rw [reachB_zero_iff]
    simp
  | succ n ih =>
    intro hk
    rw [reachB_succ_iff]
    refine ⟨?_, rfl, (0, -1), by simp [manhattanOffs], ?_⟩
    · unfold lineMap mkGridMap inDims
      simp only
      omega
    · have he : (((0 : Int) + (0 : Int)), (((n + 1 : Nat) : Int) + (-1 : Int))) =
          (((0 : Int)), ((n : Nat) : Int)) := by
        rw [Prod.mk.injEq]
        omega
      rw [he]
      exact ih (by omega)

lemma line_reach_min : ∀ (k : Nat) (x y : Int),
    reachB lineMap manhattanOffs [((0 : Int), (0 : Int))] k (x, y) = true → y ≤ (k : Int) := by
  intro k
  induction k with
  | zero =>
    intro x y h
    rw [reachB_zero_iff] at h
    simp at h
    omega
  | succ n ih =>
    intro x y h
    rw [reachB_succ_iff] at h
    obtain ⟨_, _, o, ho, hro⟩ := h
    have hy := ih (x + o.1) (y + o.2) hro
    simp only [manhattanOffs, List.mem_cons, List.not_mem_nil, or_false] at ho
    rcases ho with rfl | rfl | rfl | rfl <;> simp only at hy <;> omega

/-! ### The textual rendering -/

lemma stringJoin_cons (a : String) (l : List String) :
    String.join (a :: l) = a ++ String.join l := by
  simp only [String.join_eq, List.map_cons, List.flatten_cons]
  rfl

lemma foldl_append_join {α : Type} (l : List α) (f : α → String) (init : String) :
    l.foldl (fun b a => b ++ f a) init = init ++ String.join (l.map f) := by
  induction l generalizing init with
  | nil =>
    simp only [List.foldl_nil, List.map_nil]
    rw [show String.join [] = "" from rfl, String.append_empty]
  | cons a as ih =>
    simp only [List.foldl_cons, List.map_cons]
    rw [stringJoin_cons, ih, String.append_assoc]

lemma foldl_append2_join {α : Type} (l : List α) (f g : α → String) (init : String) :
    l.foldl (fun b a => b ++ f a ++ g a) init =
      init ++ String.join (l.map fun a => f a ++ g a) := by
  induction l generalizing init with
  | nil =>
    simp only [List.foldl_nil, List.map_nil]
    rw [show String.join [] = "" from rfl, String.append_empty]
  | cons a as ih =>
    simp only [List.foldl_cons, List.map_cons]
    rw [stringJoin_cons, ih, String.append_assoc, String.append_assoc,
      String.append_assoc (f a) (g a)]

lemma dmapString_eq_specLeftPad (d : DijkstraMap) : d.String = specStringLeftPad d := by
  unfold DijkstraMap.String specStringLeftPad
  have h1 : ∀ (buf : String), ∀ x ∈ List.range d.M.SizeX,
      ((List.range d.M.SizeY).foldl
        (fun b (y : Nat) => b ++ pad6 (d.Points (x : Int) (y : Int)) ++ ", ") buf) ++ "\n" =
        buf ++ (String.join ((List.range d.M.SizeY).map
          fun (y : Nat) => pad6 (d.Points (x : Int) (y : Int)) ++ ", ") ++ "\n") := by
    intro buf x _
    rw [foldl_append2_join, String.append_assoc]
  rw [List.foldl_ext _ _ "" h1, foldl_append_join, String.empty_append]

/-! ### The unchecked target writes of `Calc` -/

lemma setTargetsChecked_eq (d : DijkstraMap) (ts : List (Int × Int)) :
    setTargetsChecked d ts =
      if ∀ t ∈ ts, inDims d.M t.1 t.2 then some (setTargets d ts) else none := by
  induction ts generalizing d with
  | nil => simp [setTargetsChecked, setTargets]
  | cons t ts ih =>
    show (setPointChecked d t.1 t.2 0 >>= fun a => List.foldlM _ a ts) = _
    unfold setPointChecked
    by_cases hin : inDims d.M t.1 t.2
    · rw [if_pos hin]
      show setTargetsChecked (setPoint d t.1 t.2 0) ts = _
      rw [ih, setPoint_M]
      by_cases hall : ∀ s ∈ ts, inDims d.M s.1 s.2
      · rw [if_pos hall, if_pos (by rw [List.forall_mem_cons]; exact ⟨hin, hall⟩)]
        rfl
      · rw [if_neg hall, if_neg (by rw [List.forall_mem_cons]; exact fun hc => hall hc.2)]
    · rw [if_neg hin]
      rw [if_neg (by rw [List.forall_mem_cons]; exact fun hc => hin hc.1)]
      rfl

lemma CalcChecked_eq (nf : NeigbourFunc) (d : DijkstraMap) (ts : List (Int × Int)) :
    CalcChecked nf d ts =
      if ∀ t ∈ ts, inDims d.M t.1 t.2 then some (Calc nf d ts) else none := by
  unfold CalcChecked
  rw [setTargetsChecked_eq]
  split
  · rfl
  · rfl

/-! ### The claims -/

/-- Claim C1, counterexample to the claim as stated: on a 1 by 70000
all-passable grid with the single target (0,0), the cell (0,69999) is
passable and reachable, its minimum hop count is 69999, yet after
BlankDMap and Calc it holds RankMax = 65525, not 69999 — the relaxation
cannot represent distances above RankMax. -/
theorem C1_counterexample :
    inDims lineMap 0 69999 ∧
    lineMap.IsPassable 0 69999 = true ∧
    ReachMin lineMap manhattanOffs [((0 : Int), (0 : Int))] 69999 ((0 : Int), (69999 : Int)) ∧
    (Calc ManhattanNeighbours (BlankDMap lineMap) [((0 : Int), (0 : Int))]).Points 0 69999 =
      RankMax ∧
    RankMax ≠ 69999 := by
  refine ⟨by decide, rfl, ⟨?_, ?_⟩, ?_, by decide⟩
  · have h := line_reach 69999 (by norm_num)
    simpa using h
  · intro j hj
    have h := line_reach_min j 0 69999 hj
    exact_mod_cast h
  · apply Calc_blank_far lineMap manhattanOffs [((0 : Int), (0 : Int))] ManhattanNeighbours
      0 69999 manhattan_eq_offsets (mkGridMap_OOB 1 70000 _) (by decide)
    intro j hj
    have h := line_reach_min j 0 69999 hj
    rw [RankMax_eq]
    omega

/-- Claim C1 (amended): for every grid whose out-of-bounds predicate
agrees with its dimensions, every offset-list topology, and every set of
in-bounds targets, after BlankDMap followed by Calc each passable
in-dimension cell whose minimum unit-hop distance to the nearest target
(through passable cells) is at most RankMax holds exactly that
distance; each passable cell all of whose hop counts exceed RankMax —
in particular each unreachable one — holds RankMax. -/
theorem C1_calc_ranks_are_min_hops (m : Map) (offs ts : List (Int × Int)) (nf : NeigbourFunc)
    (x y : Int) (k : Nat)
    (hnf : nf = offsetNeighbours offs)
    (hOOB : ∀ i j : Int, m.OOB i j = true ↔ ¬ inDims m i j)
    (hts : ∀ t ∈ ts, inDims m t.1 t.2)
    (hin : inDims m x y) (hp : m.IsPassable x y = true) :
    (ReachMin m offs ts k (x, y) → k ≤ RankMax →
      (Calc nf (BlankDMap m) ts).Points x y = k) ∧
    ((∀ j, reachB m offs ts j (x, y) = true → RankMax < j) →
      (Calc nf (BlankDMap m) ts).Points x y = RankMax) :=
  ⟨fun hmin hk => Calc_blank_dist m offs ts nf x y k hnf hOOB hts hmin hk,
   fun hfar => Calc_blank_far m offs ts nf x y hnf hOOB hts hfar⟩

/-- Claim C1, witness: on a 1 by 2 all-passable grid with target (0,0),
the cell (0,1) ends at rank 1, its true minimum hop count. -/
theorem C1_witness :
    (Calc (offsetNeighbours manhattanOffs)
      (BlankDMap (mkGridMap 1 2 fun _ _ => true)) [((0 : Int), (0 : Int))]).Points 0 1 = 1 :=
  (C1_calc_ranks_are_min_hops (mkGridMap 1 2 fun _ _ => true) manhattanOffs
      [((0 : Int), (0 : Int))] (offsetNeighbours manhattanOffs) 0 1 1 rfl
      (mkGridMap_OOB 1 2 _) (by decide) (by decide) rfl).1
    ⟨by decide, fun j hj => by
      cases j with
      | zero => exact absurd hj (by decide)
      | succ n => exact Nat.succ_le_succ (Nat.zero_le n)⟩
    (by decide)

/-- Claim C2: for every map, topology and target list, the sweep loop
of Calc terminates: the fuelled loop is fuel-indifferent beyond
`calcFuel` (so the unbounded Go loop is well defined and equals `Calc`),
and the state Calc returns is a true fixed point — one further sweep
makes no mutation. -/
theorem C2_calc_terminates (nf : NeigbourFunc) (d : DijkstraMap) (ts : List (Int × Int)) :
    (∀ fuel, calcFuel (setTargets d ts) ≤ fuel →
      calcLoop nf fuel (setTargets d ts) = Calc nf d ts) ∧
    sweep nf (Calc nf d ts) = (Calc nf d ts, false) :=
  ⟨fun fuel hf => Calc_fuel_suffices nf d ts fuel hf, Calc_fix nf d ts⟩

/-- Claim C2, witness: on a concrete 2 by 2 grid, one unit of extra
fuel changes nothing. -/
theorem C2_witness :
    calcLoop (offsetNeighbours manhattanOffs)
        (calcFuel (setTargets (BlankDMap (mkGridMap 2 2 fun _ _ => true))
          [((0 : Int), (0 : Int))]) + 1)
        (setTargets (BlankDMap (mkGridMap 2 2 fun _ _ => true)) [((0 : Int), (0 : Int))]) =
      Calc (offsetNeighbours manhattanOffs) (BlankDMap (mkGridMap 2 2 fun _ _ => true))
        [((0 : Int), (0 : Int))] :=
  (C2_calc_terminates (offsetNeighbours manhattanOffs)
      (BlankDMap (mkGridMap 2 2 fun _ _ => true)) [((0 : Int), (0 : Int))]).1
    _ (Nat.le_succ _)

/-- Claim C3: every coordinate passed as a target to Calc (or Recalc)
holds rank exactly 0 afterwards, whatever its passability: targets are
force-set to 0 and ranks never increase during the sweeps. -/
theorem C3_targets_rank_zero (nf : NeigbourFunc) (d : DijkstraMap) (ts : List (Int × Int))
    (t : Int × Int) (ht : t ∈ ts) (hin : inDims d.M t.1 t.2) :
    (Calc nf d ts).Points t.1 t.2 = 0 ∧ (Recalc nf d ts).Points t.1 t.2 = 0 :=
  ⟨Calc_target_zero nf d ts t ht, Calc_target_zero nf (resetPoints d) ts t ht⟩

/-- Claim C3, witness: an impassable target cell still ends at 0. -/
theorem C3_witness :
    (Calc (offsetNeighbours manhattanOffs) (BlankDMap (mkGridMap 2 1 fun _ _ => false))
      [((1 : Int), (0 : Int))]).Points 1 0 = 0 ∧
    (Recalc (offsetNeighbours manhattanOffs) (BlankDMap (mkGridMap 2 1 fun _ _ => false))
      [((1 : Int), (0 : Int))]).Points 1 0 = 0 :=
  C3_targets_rank_zero (offsetNeighbours manhattanOffs)
    (BlankDMap (mkGridMap 2 1 fun _ _ => false)) [((1 : Int), (0 : Int))]
    ((1 : Int), (0 : Int)) (by decide) (by decide)

/-- Claim C4: for a fixed grid whose out-of-bounds predicate agrees
with its dimensions, Recalc with any targets yields, cell for cell over
the grid, the same rank field as a fresh BlankDMap followed by Calc. -/
theorem C4_recalc_eq_blank_calc (m : Map) (offs ts : List (Int × Int)) (nf : NeigbourFunc)
    (d : DijkstraMap) (x y : Int)
    (hnf : nf = offsetNeighbours offs) (hm : d.M = m)
    (hOOB : ∀ i j : Int, m.OOB i j = true ↔ ¬ inDims m i j)
    (hin : inDims m x y) :
    (Recalc nf d ts).Points x y = (Calc nf (BlankDMap m) ts).Points x y :=
  Recalc_points_eq_blank_calc m offs nf hnf d ts hm hOOB x y hin

/-- Claim C4, witness: recomputing over a stale field equals a fresh
blank-and-calc at cell (1,1). -/
theorem C4_witness :
    (Recalc (offsetNeighbours manhattanOffs)
      { Points := fun _ _ => 7, M := mkGridMap 2 2 fun _ _ => true }
      [((0 : Int), (0 : Int))]).Points 1 1 =
    (Calc (offsetNeighbours manhattanOffs) (BlankDMap (mkGridMap 2 2 fun _ _ => true))
      [((0 : Int), (0 : Int))]).Points 1 1 :=
  C4_recalc_eq_blank_calc (mkGridMap 2 2 fun _ _ => true) manhattanOffs
    [((0 : Int), (0 : Int))] (offsetNeighbours manhattanOffs)
    { Points := fun _ _ => 7, M := mkGridMap 2 2 fun _ _ => true } 1 1
    rfl rfl (mkGridMap_OOB 2 2 _) (by decide)

/-- Claim C5: whenever the grid contract reports a coordinate out of
bounds, GetValPoint returns that coordinate with rank RankMax, whatever
the underlying rank storage contains. -/
theorem C5_oob_lookup_rankmax (d : DijkstraMap) (x y : Int) (h : d.M.OOB x y = true) :
    GetValPoint d x y = { X := x, Y := y, Val := RankMax } := by
  unfold GetValPoint
  rw [h]
  simp

/-- Claim C5, witness: a lookup outside a 1 by 1 grid whose storage
holds 3 everywhere still reports RankMax. -/
theorem C5_witness :
    GetValPoint { Points := fun _ _ => 3, M := mkGridMap 1 1 fun _ _ => true } 5 7 =
      { X := 5, Y := 7, Val := RankMax } :=
  C5_oob_lookup_rankmax { Points := fun _ _ => 3, M := mkGridMap 1 1 fun _ _ => true } 5 7
    (by decide)

/-- Claim C6: Calc (and Recalc) with zero targets on a freshly blanked
map leave every cell at RankMax, and indeed the very first sweep already
makes no mutation. -/
theorem C6_no_targets_all_rankmax (m : Map) (offs : List (Int × Int)) (nf : NeigbourFunc)
    (hnf : nf = offsetNeighbours offs) :
    (∀ x y : Int, (Calc nf (BlankDMap m) []).Points x y = RankMax) ∧
    (∀ x y : Int, (Recalc nf (BlankDMap m) []).Points x y = RankMax) ∧
    sweep nf (BlankDMap m) = (BlankDMap m, false) := by
  subst hnf
  refine ⟨fun x y => ?_, fun x y => ?_, sweep_blank offs m⟩
  · rw [Calc_blank_no_targets offs m]
    rfl
  · rw [Recalc_blank_no_targets offs m]
    rfl

/-- Claim C6, witness: the centre of a blanked 3 by 3 grid stays at
RankMax after a zero-target Calc, and the first sweep reports no
mutation. -/
theorem C6_witness :
    (Calc (offsetNeighbours manhattanOffs) (BlankDMap (mkGridMap 3 3 fun _ _ => true))
      []).Points 1 1 = RankMax ∧
    (sweep (offsetNeighbours manhattanOffs) (BlankDMap (mkGridMap 3 3 fun _ _ => true))).2 =
      false := by
  have h := C6_no_targets_all_rankmax (mkGridMap 3 3 fun _ _ => true) manhattanOffs
    (offsetNeighbours manhattanOffs) rfl
  exact ⟨h.1 1 1, by rw [h.2.2]⟩

/-- Claim C7: Calc is idempotent at its fixed point: running Calc again
with the same targets on the field produced by BlankDMap-then-Calc
changes no cell. -/
theorem C7_calc_idempotent (m : Map) (nf : NeigbourFunc) (ts : List (Int × Int)) (x y : Int) :
    (Calc nf (Calc nf (BlankDMap m) ts) ts).Points x y =
      (Calc nf (BlankDMap m) ts).Points x y := by
  rw [Calc_idem]

/-- Claim C8: every cell is at most RankMax after BlankDMap, the bound
is preserved by Calc and Recalc, and consequently the increment in the
relaxation step stays strictly below 2^16 — the uint16 addition never
wraps. -/
theorem C8_rank_bound_no_overflow (m : Map) (offs ts : List (Int × Int)) (nf : NeigbourFunc)
    (d : DijkstraMap)
    (hd : ∀ a b : Int, d.Points a b ≤ RankMax) (hnf : nf = offsetNeighbours offs) :
    (∀ a b : Int, (BlankDMap m).Points a b ≤ RankMax) ∧
    (∀ a b : Int, (Calc nf d ts).Points a b ≤ RankMax) ∧
    (∀ a b : Int, (Recalc nf d ts).Points a b ≤ RankMax) ∧
    (∀ x y : Int, (LowestNeighbour nf d x y).Val + 1 < 65536) := by
  subst hnf
  refine ⟨fun a b => le_rfl, fun a b => ?_, fun a b => ?_, fun x y => ?_⟩
  · have h := Calc_le_setTargets (offsetNeighbours offs) d ts a b
    rw [setTargets_points] at h
    refine le_trans h ?_
    split
    · rw [RankMax_eq]
      omega
    · exact hd a b
  · have h := Calc_le_setTargets (offsetNeighbours offs) (resetPoints d) ts a b
    rw [setTargets_points, resetPoints_points] at h
    refine le_trans h ?_
    split
    · rw [RankMax_eq]
      omega
    · split
      · exact le_rfl
      · exact hd a b
  · have h := LowestNeighbour_bound offs d x y hd
    rw [RankMax_eq] at h
    omega

/-- Claim C8, witness: on a blank 2 by 2 grid the computed cell (0,0)
is bounded and the incremented lowest neighbour fits in 16 bits. -/
theorem C8_witness :
    (Calc (offsetNeighbours manhattanOffs) (BlankDMap (mkGridMap 2 2 fun _ _ => true))
      [((0 : Int), (0 : Int))]).Points 0 0 ≤ RankMax ∧
    (LowestNeighbour (offsetNeighbours manhattanOffs)
      (BlankDMap (mkGridMap 2 2 fun _ _ => true)) 0 0).Val + 1 < 65536 := by
  have h := C8_rank_bound_no_overflow (mkGridMap 2 2 fun _ _ => true) manhattanOffs
    [((0 : Int), (0 : Int))] (offsetNeighbours manhattanOffs)
    (BlankDMap (mkGridMap 2 2 fun _ _ => true)) (fun _ _ => le_rfl) rfl
  exact ⟨h.2.1 0 0, h.2.2.2 0 0⟩

/-- Claim C9, counterexample to the claim as stated: the String method
does not right-pad cell values — on a blank 1 by 1 grid its output
differs from the rendering with right-padded (left-aligned) cells,
because `%6d` pads on the left. -/
theorem C9_counterexample :
    (BlankDMap (mkGridMap 1 1 fun _ _ => true)).String ≠
      specStringRightPad (BlankDMap (mkGridMap 1 1 fun _ _ => true)) := by
  decide

/-- Claim C9 (amended): the String method renders the rank grid with
each cell's value left-padded (right-aligned) to a fixed width of six
and followed by a comma and space, and each row, the last included,
terminated by a newline. -/
theorem C9_string_rendering (d : DijkstraMap) : d.String = specStringLeftPad d :=
  dmapString_eq_specLeftPad d

/-- Claim C10: Calc's target-writing phase performs unchecked array
writes: with the array-bounds (panic) semantics made explicit, it
succeeds — returning exactly the unchecked computation — precisely when
every target lies within the grid dimensions, and panics otherwise;
unlike GetValPoint, out-of-bounds targets are not tolerated. -/
theorem C10_target_writes_need_bounds (nf : NeigbourFunc) (d : DijkstraMap)
    (ts : List (Int × Int)) :
    CalcChecked nf d ts =
      if ∀ t ∈ ts, inDims d.M t.1 t.2 then some (Calc nf d ts) else none :=
  CalcChecked_eq nf d ts
